import Mathlib

/-!
# Recommendation engine of the stock service

A shallow embedding of `internal/pkg/service/stock_service.go` and of the
`Stock` record of `internal/pkg/models/stock.go`.

Modelling conventions

* Go `string` values are Lean `String`s (sequences of Unicode scalar values).
* Go `int` counters are `Int`.  Every counter starts at `0` and is incremented
  at most once per element of a slice, so it never leaves the 64-bit range.
* A Go `float64` value is the rational number it denotes (`float64 := ℚ`).
  `calculateRecommendationScore64` rounds every floating-point operation to
  binary64 (`round64`: nearest value with 53 significant binary digits, ties
  to even, each operation on its own); it is the score that the generation run
  stores.  `calculateRecommendationScore`, `calculateRiskLevel` and
  `calculateExpectedReturn` carry the same control flow with the arithmetic
  done exactly, without rounding.
* `time.Time` values are modelled by the instant they denote, an `Int`;
  `After` is the strict order on instants.
* A Go `map[string][]models.Stock` is an association list with unique keys;
  the position of a key in the list carries no meaning.  The order in which
  `range` visits the entries is a parameter of the run.
* The store is the interface `repository.StockRepository` over an abstract
  state; a method that writes returns the new state and its error.  Calls of
  `log` have no effect on the result and are left out.
* The feed, `time.Parse` and `time.Now` are parameters of a fetch (`FeedEnv`).
-/

namespace Truora

/-! ## Data model (`models/stock.go`) -/

namespace time

/-- The instant denoted by a `time.Time`. -/
abbrev Time := Int

/-- The method `t.After(u)`: the instant `t` is strictly later than `u`. -/
def Time.After (t u : Time) : Bool := decide (u < t)

end time

/-- A Go `float64` value, as the rational number it denotes. -/
abbrev float64 := ℚ

/-- The record `models.Stock` (the bookkeeping columns `CreatedAt`,
`UpdatedAt`, `DeletedAt` are not read by the service and are left out). -/
structure Stock where
  ID : Nat
  Ticker : String
  Company : String
  TargetFrom : String
  TargetTo : String
  Action : String
  Brokerage : String
  RatingFrom : String
  RatingTo : String
  Time : time.Time
  LastUpdated : time.Time
deriving DecidableEq, Repr

/-! ## The parts of package `strings` and `fmt` used by the scorer -/

/-- Lower-case form of one rune, as far as it can matter for a match against
an ASCII keyword: `A`..`Z` go to `a`..`z`; the two runes outside ASCII whose
lower case is an ASCII letter (U+212A KELVIN SIGN to `k`, U+0130 to `i`) are
mapped as `unicode.ToLower` maps them; every other rune outside ASCII has a
lower case outside ASCII and is kept as it is. -/
def toLowerRune (c : Char) : Char :=
  if c = Char.ofNat 0x212A then 'k'
  else if c = Char.ofNat 0x130 then 'i'
  else c.toLower

/-- Substring test on rune sequences: `sub` starts at some position of `s`. -/
def hasInfix : List Char → List Char → Bool
  | [], sub => sub.isEmpty
  | c :: cs, sub => sub.isPrefixOf (c :: cs) || hasInfix cs sub

namespace strings

/-- The function `strings.ToLower`. -/
def ToLower (s : String) : String := ⟨s.data.map toLowerRune⟩

/-- The function `strings.Contains`. -/
def Contains (s substr : String) : Bool := hasInfix s.data substr.data

/-- The function `strings.Join`. -/
def Join : List String → String → String
  | [], _ => ""
  | [a], _ => a
  | a :: b :: rest, sep => a ++ sep ++ Join (b :: rest) sep

end strings

/-- The verb `%d` of `fmt.Sprintf` applied to an `int`. -/
def fmtD : Int → String
  | Int.ofNat n => Nat.repr n
  | Int.negSucc n => "-" ++ Nat.repr (n + 1)

/-! ## Counting helpers -/

/-- One iteration of the loop of `countUpgradesDowngrades` (lines 400-407);
the pair of counters is the loop state. -/
def countUpgradesDowngradesBody (acc : Int × Int) (stock : Stock) : Int × Int :=
  let action := strings.ToLower stock.Action
  if strings.Contains action "upgrade" then (acc.1 + 1, acc.2)
  else if strings.Contains action "downgrade" then (acc.1, acc.2 + 1)
  else acc

/-- The function `countUpgradesDowngrades` (lines 396-410). -/
def countUpgradesDowngrades (stocks : List Stock) : Int × Int :=
  stocks.foldl countUpgradesDowngradesBody (0, 0)

/-- One iteration of the loop of `countRatings` (lines 418-427); the triple
of counters is the loop state. -/
def countRatingsBody (acc : Int × Int × Int) (stock : Stock) : Int × Int × Int :=
  let ratingTo := strings.ToLower stock.RatingTo
  if strings.Contains ratingTo "buy" || strings.Contains ratingTo "outperform"
      || strings.Contains ratingTo "strong buy" then
    (acc.1 + 1, acc.2.1, acc.2.2)
  else if strings.Contains ratingTo "sell" || strings.Contains ratingTo "underperform"
      || strings.Contains ratingTo "strong sell" then
    (acc.1, acc.2.1 + 1, acc.2.2)
  else if strings.Contains ratingTo "hold" || strings.Contains ratingTo "neutral" then
    (acc.1, acc.2.1, acc.2.2 + 1)
  else acc

/-- The function `countRatings` (lines 413-430). -/
def countRatings (stocks : List Stock) : Int × Int × Int :=
  stocks.foldl countRatingsBody (0, 0, 0)

/-! ## Scorer -/

/-- The five counters that the loop of `calculateRecommendationScore` keeps. -/
structure ScoreCounters where
  upgradeCount : Int
  downgradeCount : Int
  buyRatings : Int
  sellRatings : Int
  holdRatings : Int
deriving DecidableEq, Repr

/-- One iteration of the loop of `calculateRecommendationScore`
(lines 272-289). -/
def scoreLoopBody (c : ScoreCounters) (stock : Stock) : ScoreCounters :=
  let c1 :=
    if strings.Contains (strings.ToLower stock.Action) "upgrade" then
      { c with upgradeCount := c.upgradeCount + 1 }
    else if strings.Contains (strings.ToLower stock.Action) "downgrade" then
      { c with downgradeCount := c.downgradeCount + 1 }
    else c
  let ratingTo := strings.ToLower stock.RatingTo
  if strings.Contains ratingTo "buy" || strings.Contains ratingTo "outperform"
      || strings.Contains ratingTo "strong buy" then
    { c1 with buyRatings := c1.buyRatings + 1 }
  else if strings.Contains ratingTo "sell" || strings.Contains ratingTo "underperform"
      || strings.Contains ratingTo "strong sell" then
    { c1 with sellRatings := c1.sellRatings + 1 }
  else if strings.Contains ratingTo "hold" || strings.Contains ratingTo "neutral" then
    { c1 with holdRatings := c1.holdRatings + 1 }
  else c1

/-- The counters after the loop of `calculateRecommendationScore`. -/
def scoreCounters (stocks : List Stock) : ScoreCounters :=
  stocks.foldl scoreLoopBody ⟨0, 0, 0, 0, 0⟩

/-- The function `calculateRecommendationScore` (lines 263-314), with its
arithmetic done exactly; `calculateRecommendationScore64` is the same function
with every operation rounded to binary64. -/
def calculateRecommendationScore (stocks : List Stock) : float64 :=
  let score : float64 := 50
  let c := scoreCounters stocks
  let score :=
    if c.upgradeCount > c.downgradeCount then
      score + ((c.upgradeCount - c.downgradeCount : Int) : float64) * 10
    else if c.downgradeCount > c.upgradeCount then
      score - ((c.downgradeCount - c.upgradeCount : Int) : float64) * 10
    else score
  let totalRatings := c.buyRatings + c.sellRatings + c.holdRatings
  let score :=
    if totalRatings > 0 then
      let buyPercentage : float64 := (c.buyRatings : float64) / (totalRatings : float64)
      let sellPercentage : float64 := (c.sellRatings : float64) / (totalRatings : float64)
      score + (buyPercentage - sellPercentage) * 30
    else score
  if score > 100 then 100
  else if score < 0 then 0
  else score

/-- The function `calculateRiskLevel` (lines 317-332). -/
def calculateRiskLevel (stocks : List Stock) : String :=
  let (upgradeCount, downgradeCount) := countUpgradesDowngrades stocks
  let totalActions := upgradeCount + downgradeCount
  if totalActions = 0 then "medium"
  else
    let upgradeRatio : float64 := (upgradeCount : float64) / (totalActions : float64)
    if upgradeRatio > 0.7 then "low"
    else if upgradeRatio < 0.3 then "high"
    else "medium"

/-- The function `calculateExpectedReturn` (lines 335-348). -/
def calculateExpectedReturn (stocks : List Stock) : float64 :=
  if stocks.length = 0 then 0.0
  else
    let (upgradeCount, downgradeCount) := countUpgradesDowngrades stocks
    if upgradeCount > downgradeCount then
      ((upgradeCount - downgradeCount : Int) : float64) * 2.5
    else if downgradeCount > upgradeCount then
      ((upgradeCount - downgradeCount : Int) : float64) * 2.5
    else 5.0

/-- The function `generateReason` (lines 351-380). -/
def generateReason (stocks : List Stock) (score : float64) : String :=
  let (upgradeCount, downgradeCount) := countUpgradesDowngrades stocks
  let (buyCount, sellCount, _) := countRatings stocks
  let reasons : List String := []
  let reasons :=
    if upgradeCount > downgradeCount then
      reasons ++ [fmtD upgradeCount ++ " upgrades vs " ++ fmtD downgradeCount ++ " downgrades"]
    else if downgradeCount > upgradeCount then
      reasons ++ [fmtD downgradeCount ++ " downgrades vs " ++ fmtD upgradeCount ++ " upgrades"]
    else reasons
  let reasons :=
    if buyCount > sellCount then
      reasons ++ [fmtD buyCount ++ " buy ratings vs " ++ fmtD sellCount ++ " sell ratings"]
    else if sellCount > buyCount then
      reasons ++ [fmtD sellCount ++ " sell ratings vs " ++ fmtD buyCount ++ " buy ratings"]
    else reasons
  let reasons :=
    if score ≥ 70 then reasons ++ ["Strong analyst consensus"]
    else if score ≤ 30 then reasons ++ ["Weak analyst sentiment"]
    else reasons
  if reasons.length = 0 then "Mixed analyst opinions"
  else strings.Join reasons "; "

/-- The function `calculateAnalystSentiment` (lines 383-393). -/
def calculateAnalystSentiment (stocks : List Stock) : String :=
  let (upgradeCount, downgradeCount) := countUpgradesDowngrades stocks
  let (buyCount, sellCount, _) := countRatings stocks
  if upgradeCount > downgradeCount && buyCount > sellCount then "bullish"
  else if downgradeCount > upgradeCount && sellCount > buyCount then "bearish"
  else "neutral"

/-! ## Binary64 arithmetic and the score as the code computes it -/

/-- The power of two `2 ^ e` for an integer exponent `e`. -/
def pow2 (e : Int) : ℚ :=
  if 0 ≤ e then ((2 ^ e.toNat : Nat) : ℚ) else 1 / ((2 ^ (-e).toNat : Nat) : ℚ)

/-- Halving `n` until it is below 2, at most `fuel` times: the number of
halvings. -/
def log2Fuel : Nat → Nat → Nat
  | 0, _ => 0
  | fuel + 1, n => if n < 2 then 0 else log2Fuel fuel (n / 2) + 1

/-- The position of the leading binary digit of `n`: `2 ^ log2 n ≤ n` for
`n > 0`. -/
def log2 (n : Nat) : Nat := log2Fuel n n

/-- The integer `e` with `2 ^ e ≤ x < 2 ^ (e + 1)`, for a rational `x > 0`. -/
def binaryExponent (x : ℚ) : Int :=
  let e0 : Int := (log2 x.num.natAbs : Int) - (log2 x.den : Int)
  if pow2 e0 ≤ x then e0 else e0 - 1

/-- The integer nearest to `q ≥ 0`; when `q` lies half way between two
integers, the even one. -/
def roundHalfEven (q : ℚ) : Int :=
  let n : Int := q.num / (q.den : Int)
  let r : ℚ := q - (n : ℚ)
  if r < 1 / 2 then n
  else if 1 / 2 < r then n + 1
  else if n % 2 = 0 then n else n + 1

/-- Rounding of a rational `x ≥ 0` to 53 significant binary digits. -/
def round64Pos (x : ℚ) : ℚ :=
  if x = 0 then 0
  else
    let ulp := pow2 (binaryExponent x - 52)
    (roundHalfEven (x / ulp) : ℚ) * ulp

/-- Rounding to the nearest binary64 value, ties to even.  The exponent is
not bounded: overflow and subnormal numbers are not modelled (the scorer
stays far from both). -/
def round64 (x : ℚ) : ℚ :=
  if x < 0 then -round64Pos (-x) else round64Pos x

namespace binary64

/-- The conversion `float64(n)` of an `int`. -/
def ofInt (n : Int) : float64 := round64 (n : ℚ)

/-- Binary64 addition. -/
def add (x y : float64) : float64 := round64 (x + y)

/-- Binary64 subtraction. -/
def sub (x y : float64) : float64 := round64 (x - y)

/-- Binary64 multiplication. -/
def mul (x y : float64) : float64 := round64 (x * y)

/-- Binary64 division. -/
def div (x y : float64) : float64 := round64 (x / y)

end binary64

/-- The function `calculateRecommendationScore` (lines 263-314) as the code
computes it: every conversion and every operation is rounded to binary64. -/
def calculateRecommendationScore64 (stocks : List Stock) : float64 :=
  let score : float64 := 50
  let c := scoreCounters stocks
  let score :=
    if c.upgradeCount > c.downgradeCount then
      binary64.add score
        (binary64.mul (binary64.ofInt (c.upgradeCount - c.downgradeCount)) 10)
    else if c.downgradeCount > c.upgradeCount then
      binary64.sub score
        (binary64.mul (binary64.ofInt (c.downgradeCount - c.upgradeCount)) 10)
    else score
  let totalRatings := c.buyRatings + c.sellRatings + c.holdRatings
  let score :=
    if totalRatings > 0 then
      let buyPercentage := binary64.div (binary64.ofInt c.buyRatings) (binary64.ofInt totalRatings)
      let sellPercentage :=
        binary64.div (binary64.ofInt c.sellRatings) (binary64.ofInt totalRatings)
      binary64.add score (binary64.mul (binary64.sub buyPercentage sellPercentage) 30)
    else score
  if score > 100 then 100
  else if score < 0 then 0
  else score

/-! ## Aggregation steps of `GenerateRecommendations` -/

/-- A Go `map[string][]models.Stock`. -/
abbrev StockMap := List (String × List Stock)

/-- Reading `m[k]`; a missing key gives the nil slice. -/
def StockMap.get : StockMap → String → List Stock
  | [], _ => []
  | (k', v) :: m, k => if k' = k then v else StockMap.get m k

/-- The assignment `m[k] = v`. -/
def StockMap.set : StockMap → String → List Stock → StockMap
  | [], k, v => [(k, v)]
  | (k', v') :: m, k, v => if k' = k then (k, v) :: m else (k', v') :: StockMap.set m k v

/-- The keys of the map. -/
def StockMap.keys (m : StockMap) : List String := m.map Prod.fst

/-- The grouping loop of `GenerateRecommendations` (lines 215-218): the value
of `stockGroups` after the loop. -/
def stockGroups (stocks : List Stock) : StockMap :=
  stocks.foldl
    (fun (m : StockMap) stock => m.set stock.Ticker (m.get stock.Ticker ++ [stock]))
    []

/-- The choice of `latestStock` inside `GenerateRecommendations`
(lines 222-232); `none` stands for the `continue` taken on an empty group. -/
def latestStock (tickerStocks : List Stock) : Option Stock :=
  match tickerStocks with
  | [] => none
  | first :: _ =>
    some (tickerStocks.foldl
      (fun latest stock => if time.Time.After stock.Time latest.Time then stock else latest)
      first)

/-! ## Vocabulary of the specification -/

/-- An event is an upgrade: its lower-cased action contains "upgrade". -/
def isUpgrade (stock : Stock) : Bool :=
  strings.Contains (strings.ToLower stock.Action) "upgrade"

/-- The lower-cased action of the event contains "downgrade". -/
def isDowngrade (stock : Stock) : Bool :=
  strings.Contains (strings.ToLower stock.Action) "downgrade"

/-- Buy family: the lower-cased rating contains "buy" or "outperform". -/
def isBuy (stock : Stock) : Bool :=
  strings.Contains (strings.ToLower stock.RatingTo) "buy"
    || strings.Contains (strings.ToLower stock.RatingTo) "outperform"

/-- Sell family: the lower-cased rating contains "sell" or "underperform". -/
def isSell (stock : Stock) : Bool :=
  strings.Contains (strings.ToLower stock.RatingTo) "sell"
    || strings.Contains (strings.ToLower stock.RatingTo) "underperform"

/-- Hold family: the lower-cased rating contains "hold" or "neutral". -/
def isHold (stock : Stock) : Bool :=
  strings.Contains (strings.ToLower stock.RatingTo) "hold"
    || strings.Contains (strings.ToLower stock.RatingTo) "neutral"

/-- `clamp x lo hi`: the value of `x` brought into the interval `[lo, hi]`. -/
def clamp (x lo hi : ℚ) : ℚ := max lo (min hi x)

/-- The rating term `R` of the score formula. -/
def ratingTerm (b s h : Int) : ℚ :=
  if b + s + h > 0 then 30 * ((b : ℚ) - (s : ℚ)) / ((b : ℚ) + (s : ℚ) + (h : ℚ)) else 0

/-- The risk level as the specification words it, on the integer counts. -/
def riskLevelSpec (u d : Int) : String :=
  if u + d = 0 then "medium"
  else if 10 * u > 7 * (u + d) then "low"
  else if 10 * u < 3 * (u + d) then "high"
  else "medium"

/-- Clause 1 of the reason: the action clause. -/
def actionClause (u d : Int) : Option String :=
  if u > d then some (fmtD u ++ " upgrades vs " ++ fmtD d ++ " downgrades")
  else if d > u then some (fmtD d ++ " downgrades vs " ++ fmtD u ++ " upgrades")
  else none

/-- Clause 2 of the reason: the rating clause. -/
def ratingClause (b s : Int) : Option String :=
  if b > s then some (fmtD b ++ " buy ratings vs " ++ fmtD s ++ " sell ratings")
  else if s > b then some (fmtD s ++ " sell ratings vs " ++ fmtD b ++ " buy ratings")
  else none

/-- Clause 3 of the reason: the score clause. -/
def scoreClause (score : ℚ) : Option String :=
  if score ≥ 70 then some "Strong analyst consensus"
  else if score ≤ 30 then some "Weak analyst sentiment"
  else none

/-- The reason as the specification words it: the clauses that apply, in the
order action, rating, score, joined by "; "; the fixed text when none applies. -/
def reasonSpec (u d b s : Int) (score : ℚ) : String :=
  let clauses := [actionClause u d, ratingClause b s, scoreClause score].reduceOption
  if clauses = [] then "Mixed analyst opinions" else "; ".intercalate clauses

/-- An event with the given action and rating, every other field blank. -/
def exampleEvent (action ratingTo : String) : Stock :=
  ⟨0, "T", "", "", "", action, "", "", ratingTo, 0, 0⟩

/-- An event of ticker "T" with the given row id and instant, every other
field blank. -/
def timedEvent (id : Nat) (t : time.Time) : Stock :=
  ⟨id, "T", "", "", "", "", "", "", "", t, 0⟩

/-- A group in which the two latest events carry the same instant. -/
def tieGroup : List Stock := [timedEvent 1 5, timedEvent 2 7, timedEvent 3 7]

/-! ## Store interface and `GenerateRecommendations` -/

/-- The record `models.StockRecommendation`, restricted to the fields that
`GenerateRecommendations` sets; `ID`, the embedded `Stock` and the bookkeeping
columns keep their zero values and are left out. -/
structure StockRecommendation where
  StockID : Nat
  RecommendationScore : float64
  RiskLevel : String
  ExpectedReturn : float64
  TimeHorizon : String
  Reason : String
  AnalystSentiment : String
  UpgradeCount : Int
  DowngradeCount : Int
deriving DecidableEq, Repr

/-- The methods of the interface `repository.StockRepository` that the
service calls in the code below, over a store state `σ`.  A Go `error` is an
`Option String` (`none` is `nil`); a method that writes returns the new state
together with its error. -/
structure StockRepository (σ : Type) where
  GetAll : σ → Int → Int → Except String (List Stock)
  BulkCreate : σ → List Stock → σ × Option String
  CreateRecommendation : σ → StockRecommendation → σ × Option String

/-- One iteration of the loop over `stockGroups` in `GenerateRecommendations`
(lines 221-256).  The error of `CreateRecommendation` is only logged, so the
iteration keeps the new state and drops the error. -/
def generateRecommendationsBody {σ : Type} (repo : StockRepository σ) (st : σ)
    (entry : String × List Stock) : σ :=
  let tickerStocks := entry.2
  match latestStock tickerStocks with
  | none => st
  | some latest =>
    let score := calculateRecommendationScore64 tickerStocks
    let riskLevel := calculateRiskLevel tickerStocks
    let expectedReturn := calculateExpectedReturn tickerStocks
    let reason := generateReason tickerStocks score
    let sentiment := calculateAnalystSentiment tickerStocks
    let counts := countUpgradesDowngrades tickerStocks
    let recommendation : StockRecommendation :=
      { StockID := latest.ID
        RecommendationScore := score
        RiskLevel := riskLevel
        ExpectedReturn := expectedReturn
        TimeHorizon := "medium"
        Reason := reason
        AnalystSentiment := sentiment
        UpgradeCount := counts.1
        DowngradeCount := counts.2 }
    (repo.CreateRecommendation st recommendation).1

/-- The function `GenerateRecommendations` (lines 201-260).  `rangeOrder`
gives the order in which `range` visits the entries of the map, which Go
leaves unspecified.  The result is the state of the store after the run and
the returned error. -/
def GenerateRecommendations {σ : Type} (repo : StockRepository σ)
    (rangeOrder : StockMap → List (String × List Stock)) (st : σ) : σ × Option String :=
  match repo.GetAll st 10000 0 with
  | .error err => (st, some ("failed to get stocks for analysis: " ++ err))
  | .ok stocks =>
    if stocks.length = 0 then (st, some "no stocks available for analysis")
    else
      let groups := stockGroups stocks
      ((rangeOrder groups).foldl (generateRecommendationsBody repo) st, none)

/-! ## Feed interface and `FetchAndStoreStocks` -/

/-- The record `ExternalStockData`. -/
structure ExternalStockData where
  Ticker : String
  TargetFrom : String
  TargetTo : String
  Company : String
  Action : String
  Brokerage : String
  RatingFrom : String
  RatingTo : String
  Time : String
deriving DecidableEq, Repr

/-- The record `ExternalAPIResponse`. -/
structure ExternalAPIResponse where
  Items : List ExternalStockData
  NextPage : String
deriving DecidableEq, Repr

/-- Outcome of reading and decoding a response body as JSON. -/
inductive BodyResult where
  | readError (err : String)
  | decodeError (err : String)
  | ok (apiResponse : ExternalAPIResponse)
deriving DecidableEq, Repr

/-- Outcome of one GET request: `http.NewRequest` failed, `client.Do` failed,
or a response arrived with a status code, the text of its body and the
outcome of decoding it. -/
inductive HTTPResult where
  | requestError (err : String)
  | transportError (err : String)
  | response (statusCode : Int) (bodyText : String) (body : BodyResult)
deriving DecidableEq, Repr

/-- What lies outside the service during a fetch: the feed, as a function of
the requested URL and of the `Authorization` header (absent or present), the
parser `time.Parse(time.RFC3339, _)`, and the instant read by `time.Now()`. -/
structure FeedEnv where
  httpGet : String → Option String → HTTPResult
  parseRFC3339 : String → Option time.Time
  now : time.Time

/-- One iteration of the conversion loop of `FetchAndStoreStocks`
(lines 93-113). -/
def fetchAndStoreBody (env : FeedEnv) (stocks : List Stock) (stockData : ExternalStockData) :
    List Stock :=
  let parsedTime :=
    match env.parseRFC3339 stockData.Time with
    | some t => t
    | none => env.now
  let stock : Stock :=
    { ID := 0
      Ticker := stockData.Ticker
      Company := stockData.Company
      TargetFrom := stockData.TargetFrom
      TargetTo := stockData.TargetTo
      Action := stockData.Action
      Brokerage := stockData.Brokerage
      RatingFrom := stockData.RatingFrom
      RatingTo := stockData.RatingTo
      Time := parsedTime
      LastUpdated := env.now }
  stocks ++ [stock]

/-- The function `FetchAndStoreStocks` (lines 60-117): one request to
`apiURL`, then `BulkCreate` of the items of that response. -/
def FetchAndStoreStocks {σ : Type} (repo : StockRepository σ) (env : FeedEnv)
    (apiURL apiKey : String) (st : σ) : σ × Option String :=
  match env.httpGet apiURL (if apiKey ≠ "" then some ("Bearer " ++ apiKey) else none) with
  | .requestError err => (st, some ("failed to create request: " ++ err))
  | .transportError err => (st, some ("failed to fetch stocks from API: " ++ err))
  | .response statusCode _ body =>
    if statusCode ≠ 200 then (st, some ("API returned status code: " ++ fmtD statusCode))
    else
      match body with
      | .readError err => (st, some ("failed to decode API response: " ++ err))
      | .decodeError err => (st, some ("failed to decode API response: " ++ err))
      | .ok apiResponse =>
        let stocks := apiResponse.Items.foldl (fetchAndStoreBody env) []
        repo.BulkCreate st stocks

/-- The function `fetchStockPage` (lines 120-178); no function of the
service calls it. -/
def fetchStockPage (env : FeedEnv) (apiURL apiKey nextPage : String) :
    Except String (List Stock × Option String) :=
  let url := if nextPage ≠ "" then apiURL ++ "?next_page=" ++ nextPage else apiURL
  match env.httpGet url (some ("Bearer " ++ apiKey)) with
  | .requestError err => .error ("failed to create request: " ++ err)
  | .transportError err => .error ("failed to make request: " ++ err)
  | .response statusCode bodyText body =>
    if statusCode ≠ 200 then
      .error ("API request failed with status " ++ fmtD statusCode ++ ": " ++ bodyText)
    else
      match body with
      | .readError err => .error ("failed to read response body: " ++ err)
      | .decodeError err => .error ("failed to unmarshal response: " ++ err)
      | .ok apiResponse =>
        let stocks := apiResponse.Items.map (fun stockData =>
          ({ ID := 0
             Ticker := stockData.Ticker
             Company := stockData.Company
             TargetFrom := stockData.TargetFrom
             TargetTo := stockData.TargetTo
             Action := stockData.Action
             Brokerage := stockData.Brokerage
             RatingFrom := stockData.RatingFrom
             RatingTo := stockData.RatingTo
             Time := env.now
             LastUpdated := env.now } : Stock))
        let nextPagePtr := if apiResponse.NextPage ≠ "" then some apiResponse.NextPage else none
        .ok (stocks, nextPagePtr)

/-! ## Vocabulary of the specification: recommendations and stores -/

/-- The recommendation that the specification describes for a ticker group
and its representative event; the score is the one the code computes, in
binary64. -/
def recommendationOf (group : List Stock) (representative : Stock) : StockRecommendation :=
  { StockID := representative.ID
    RecommendationScore := calculateRecommendationScore64 group
    RiskLevel := calculateRiskLevel group
    ExpectedReturn := calculateExpectedReturn group
    TimeHorizon := "medium"
    Reason := generateReason group (calculateRecommendationScore64 group)
    AnalystSentiment := calculateAnalystSentiment group
    UpgradeCount := (countUpgradesDowngrades group).1
    DowngradeCount := (countUpgradesDowngrades group).2 }

/-- The recommendation of a group, when the group has a representative. -/
def groupRecommendation (group : List Stock) : Option StockRecommendation :=
  (latestStock group).map (recommendationOf group)

/-- The ticker group of `t` in a list of events. -/
def tickerGroup (stocks : List Stock) (t : String) : List Stock :=
  stocks.filter (fun e => e.Ticker = t)

/-- Submitting a list of recommendations to the store, one call of
`CreateRecommendation` each, in order, whatever error a call returns. -/
def submitAll {σ : Type} (repo : StockRepository σ) (st : σ)
    (recs : List StockRecommendation) : σ :=
  recs.foldl (fun s r => (repo.CreateRecommendation s r).1) st

/-- State of an in-memory store: the stored events and every recommendation
passed to `CreateRecommendation` so far, whether the write failed or not. -/
structure Store where
  stocks : List Stock
  submitted : List StockRecommendation
deriving DecidableEq, Repr

/-- An in-memory store.  `GetAll` applies offset and limit as the repository
does; `CreateRecommendation` fails exactly on the recommendations that
`fails` selects. -/
def memoryRepo (fails : StockRecommendation → Bool) : StockRepository Store where
  GetAll st limit offset := .ok ((st.stocks.drop offset.toNat).take limit.toNat)
  BulkCreate st xs := ({ st with stocks := st.stocks ++ xs }, none)
  CreateRecommendation st r :=
    ({ st with submitted := st.submitted ++ [r] },
      if fails r then some "failed to create recommendation" else none)

/-- An event with the given row id, ticker, action, rating and instant. -/
def mkEvent (id : Nat) (ticker action ratingTo : String) (t : time.Time) : Stock :=
  ⟨id, ticker, "", "", "", action, "", "", ratingTo, t, 0⟩

/-- Three stored events over two tickers. -/
def demoStocks : List Stock :=
  [mkEvent 1 "AAA" "Upgraded" "Buy" 10, mkEvent 2 "BBB" "Downgraded" "Sell" 20,
   mkEvent 3 "AAA" "Upgraded" "Buy" 30]

/-- Scenario A of the specification: the group with the given other fields. -/
def scenarioA (e1 e2 e3 : Stock) : List Stock :=
  [{ e1 with Action := "Upgraded", RatingTo := "Buy" },
   { e2 with Action := "Downgraded", RatingTo := "Hold" },
   { e3 with Action := "Upgraded", RatingTo := "Buy" }]

/-- One item of the feed with the given ticker. -/
def feedItem (ticker : String) : ExternalStockData :=
  ⟨ticker, "", "", "", "Upgraded", "", "", "Buy", ""⟩

/-- A feed of two pages: the first page, at the bare URL, holds the item "AAA"
and the cursor "p2"; the page at cursor "p2" holds the item "BBB" and the
empty cursor.  Every request to either page succeeds. -/
def twoPageFeed : FeedEnv where
  httpGet url _ :=
    if url = "https://feed" then .response 200 "" (.ok ⟨[feedItem "AAA"], "p2"⟩)
    else if url = "https://feed?next_page=p2" then .response 200 "" (.ok ⟨[feedItem "BBB"], ""⟩)
    else .response 404 "" (.decodeError "")
  parseRFC3339 _ := none
  now := 0

/-- Six events with `u = 0`, `d = 4`, `b = 5`, `s = 1`, `h = 0`. -/
def roundingEvents : List Stock :=
  [exampleEvent "Downgraded" "Buy", exampleEvent "Downgraded" "Buy",
   exampleEvent "Downgraded" "Buy", exampleEvent "Downgraded" "Buy",
   exampleEvent "Initiated" "Buy", exampleEvent "Initiated" "Sell"]

/-- A store holding 10001 events: 10000 events of ticker "AAA" (row id 1)
followed by one event of ticker "BBB" (row id 2); nothing submitted yet. -/
def overflowStore : Store :=
  ⟨List.replicate 10000 (mkEvent 1 "AAA" "Upgraded" "Buy" 10)
      ++ [mkEvent 2 "BBB" "Downgraded" "Sell" 20], []⟩

/-! ## Substring test and counting loops -/

theorem hasInfix_iff (s sub : List Char) : hasInfix s sub = true ↔ sub <:+: s := by
  induction s with
  | nil => cases sub <;> simp [hasInfix]
  | cons c cs ih =>
    rw [hasInfix, Bool.or_eq_true, ih, List.infix_cons_iff, List.isPrefixOf_iff_prefix]

theorem Contains_iff (s substr : String) :
    strings.Contains s substr = true ↔ substr.data <:+: s.data :=
  hasInfix_iff _ _

theorem Contains_mono (s a b : String) (hab : b.data <:+: a.data)
    (h : strings.Contains s a = true) : strings.Contains s b = true := by
  rw [Contains_iff] at *
  exact hab.trans h

theorem buyTest_eq (r : String) :
    (strings.Contains r "buy" || strings.Contains r "outperform"
      || strings.Contains r "strong buy") =
    (strings.Contains r "buy" || strings.Contains r "outperform") := by
  cases h : strings.Contains r "strong buy"
  · simp
  · have := Contains_mono r "strong buy" "buy" ⟨"strong ".data, [], rfl⟩ h
    simp [this]

theorem sellTest_eq (r : String) :
    (strings.Contains r "sell" || strings.Contains r "underperform"
      || strings.Contains r "strong sell") =
    (strings.Contains r "sell" || strings.Contains r "underperform") := by
  cases h : strings.Contains r "strong sell"
  · simp
  · have := Contains_mono r "strong sell" "sell" ⟨"strong ".data, [], rfl⟩ h
    simp [this]

theorem countUpgradesDowngradesBody_eq (acc : Int × Int) (e : Stock) :
    countUpgradesDowngradesBody acc e =
      (acc.1 + (if isUpgrade e then 1 else 0),
       acc.2 + (if isDowngrade e && !isUpgrade e then 1 else 0)) := by
  unfold countUpgradesDowngradesBody
  have hU : isUpgrade e = strings.Contains (strings.ToLower e.Action) "upgrade" := rfl
  have hD : isDowngrade e = strings.Contains (strings.ToLower e.Action) "downgrade" := rfl
  simp only [← hU, ← hD]
  cases isUpgrade e <;> cases isDowngrade e <;> simp

theorem countUpgradesDowngrades_foldl (stocks : List Stock) (acc : Int × Int) :
    stocks.foldl countUpgradesDowngradesBody acc =
      (acc.1 + (stocks.countP isUpgrade : Nat),
       acc.2 + (stocks.countP (fun e => isDowngrade e && !isUpgrade e) : Nat)) := by
  induction stocks generalizing acc with
  | nil => simp
  | cons e es ih =>
    rw [List.foldl_cons, ih, countUpgradesDowngradesBody_eq]
    simp only [List.countP_cons]
    cases isUpgrade e <;> cases isDowngrade e <;> simp <;> ring

theorem countRatingsBody_eq (acc : Int × Int × Int) (e : Stock) :
    countRatingsBody acc e =
      (acc.1 + (if isBuy e then 1 else 0),
       acc.2.1 + (if !isBuy e && isSell e then 1 else 0),
       acc.2.2 + (if !isBuy e && !isSell e && isHold e then 1 else 0)) := by
  unfold countRatingsBody
  simp only [buyTest_eq, sellTest_eq]
  have hB : isBuy e = (strings.Contains (strings.ToLower e.RatingTo) "buy"
    || strings.Contains (strings.ToLower e.RatingTo) "outperform") := rfl
  have hS : isSell e = (strings.Contains (strings.ToLower e.RatingTo) "sell"
    || strings.Contains (strings.ToLower e.RatingTo) "underperform") := rfl
  have hH : isHold e = (strings.Contains (strings.ToLower e.RatingTo) "hold"
    || strings.Contains (strings.ToLower e.RatingTo) "neutral") := rfl
  rw [← hB, ← hS, ← hH]
  cases isBuy e <;> cases isSell e <;> cases isHold e <;> simp

theorem countRatings_foldl (stocks : List Stock) (acc : Int × Int × Int) :
    stocks.foldl countRatingsBody acc =
      (acc.1 + (stocks.countP isBuy : Nat),
       acc.2.1 + (stocks.countP (fun e => !isBuy e && isSell e) : Nat),
       acc.2.2 + (stocks.countP (fun e => !isBuy e && !isSell e && isHold e) : Nat)) := by
  induction stocks generalizing acc with
  | nil => simp
  | cons e es ih =>
    rw [List.foldl_cons, ih, countRatingsBody_eq]
    simp only [List.countP_cons]
    cases isBuy e <;> cases isSell e <;> cases isHold e <;> simp <;> ring

theorem scoreLoopBody_eq (c : ScoreCounters) (e : Stock) :
    scoreLoopBody c e =
      ⟨c.upgradeCount + (if isUpgrade e then 1 else 0),
       c.downgradeCount + (if isDowngrade e && !isUpgrade e then 1 else 0),
       c.buyRatings + (if isBuy e then 1 else 0),
       c.sellRatings + (if !isBuy e && isSell e then 1 else 0),
       c.holdRatings + (if !isBuy e && !isSell e && isHold e then 1 else 0)⟩ := by
  unfold scoreLoopBody
  simp only [buyTest_eq, sellTest_eq]
  have hB : isBuy e = (strings.Contains (strings.ToLower e.RatingTo) "buy"
    || strings.Contains (strings.ToLower e.RatingTo) "outperform") := rfl
  have hS : isSell e = (strings.Contains (strings.ToLower e.RatingTo) "sell"
    || strings.Contains (strings.ToLower e.RatingTo) "underperform") := rfl
  have hH : isHold e = (strings.Contains (strings.ToLower e.RatingTo) "hold"
    || strings.Contains (strings.ToLower e.RatingTo) "neutral") := rfl
  have hU : isUpgrade e = strings.Contains (strings.ToLower e.Action) "upgrade" := rfl
  have hD : isDowngrade e = strings.Contains (strings.ToLower e.Action) "downgrade" := rfl
  rw [← hB, ← hS, ← hH, ← hU, ← hD]
  cases isUpgrade e <;> cases isDowngrade e <;> cases isBuy e <;> cases isSell e <;>
    cases isHold e <;> simp

theorem scoreCounters_foldl (stocks : List Stock) (c : ScoreCounters) :
    stocks.foldl scoreLoopBody c =
      ⟨c.upgradeCount + (stocks.countP isUpgrade : Nat),
       c.downgradeCount + (stocks.countP (fun e => isDowngrade e && !isUpgrade e) : Nat),
       c.buyRatings + (stocks.countP isBuy : Nat),
       c.sellRatings + (stocks.countP (fun e => !isBuy e && isSell e) : Nat),
       c.holdRatings + (stocks.countP (fun e => !isBuy e && !isSell e && isHold e) : Nat)⟩ := by
  induction stocks generalizing c with
  | nil => simp
  | cons e es ih =>
    rw [List.foldl_cons, ih, scoreLoopBody_eq]
    simp only [List.countP_cons]
    cases isUpgrade e <;> cases isDowngrade e <;> cases isBuy e <;> cases isSell e <;>
      cases isHold e <;> simp <;> (try constructor) <;> ring_nf

/-! ## Counting helpers in closed form -/

theorem countUpgradesDowngrades_eq (stocks : List Stock) :
    countUpgradesDowngrades stocks =
      (((stocks.countP isUpgrade : Nat) : Int),
       ((stocks.countP (fun e => isDowngrade e && !isUpgrade e) : Nat) : Int)) := by
  simp [countUpgradesDowngrades, countUpgradesDowngrades_foldl]

theorem countRatings_eq (stocks : List Stock) :
    countRatings stocks =
      (((stocks.countP isBuy : Nat) : Int),
       ((stocks.countP (fun e => !isBuy e && isSell e) : Nat) : Int),
       ((stocks.countP (fun e => !isBuy e && !isSell e && isHold e) : Nat) : Int)) := by
  simp [countRatings, countRatings_foldl]

theorem scoreCounters_eq (stocks : List Stock) :
    scoreCounters stocks =
      ⟨(countUpgradesDowngrades stocks).1, (countUpgradesDowngrades stocks).2,
       (countRatings stocks).1, (countRatings stocks).2.1, (countRatings stocks).2.2⟩ := by
  simp [scoreCounters, scoreCounters_foldl, countUpgradesDowngrades_eq, countRatings_eq]

theorem countRatings_nonneg (stocks : List Stock) :
    0 ≤ (countRatings stocks).1 ∧ 0 ≤ (countRatings stocks).2.1 ∧
      0 ≤ (countRatings stocks).2.2 := by
  rw [countRatings_eq]; simp

theorem countUpgradesDowngrades_nonneg (stocks : List Stock) :
    0 ≤ (countUpgradesDowngrades stocks).1 ∧ 0 ≤ (countUpgradesDowngrades stocks).2 := by
  rw [countUpgradesDowngrades_eq]; simp

theorem countP_disjoint_two (l : List Stock) (p q : Stock → Bool)
    (hpq : ∀ e, p e = true → q e = false) :
    l.countP p + l.countP q ≤ l.length := by
  induction l with
  | nil => simp
  | cons e es ih =>
    simp only [List.countP_cons, List.length_cons]
    cases hp : p e
    · cases hq : q e <;> simp <;> omega
    · simp [hpq e hp]; omega

theorem countP_disjoint_three (l : List Stock) (p q r : Stock → Bool)
    (hpq : ∀ e, p e = true → q e = false) (hpr : ∀ e, p e = true → r e = false)
    (hqr : ∀ e, q e = true → r e = false) :
    l.countP p + l.countP q + l.countP r ≤ l.length := by
  induction l with
  | nil => simp
  | cons e es ih =>
    simp only [List.countP_cons, List.length_cons]
    cases hp : p e
    · cases hq : q e
      · cases hr : r e <;> simp <;> omega
      · simp [hqr e hq]; omega
    · simp [hpq e hp, hpr e hp]; omega

theorem toLowerRune_toUpper (c : Char) : toLowerRune c.toUpper = toLowerRune c := by
  by_cases h : c.toNat ≥ 97 ∧ c.toNat ≤ 122
  · have hc : c = Char.ofNat c.toNat := (Char.ofNat_toNat c).symm
    obtain ⟨h1, h2⟩ := h
    generalize c.toNat = n at hc h1 h2
    subst hc
    interval_cases n <;> decide
  · have : c.toUpper = c := by
      unfold Char.toUpper
      simp only []
      rw [if_neg]
      simpa [Char.toNat] using h
    rw [this]

/-! ## Score -/

theorem clamp_branches (x : ℚ) :
    (if x > 100 then (100 : ℚ) else if x < 0 then 0 else x) = clamp x 0 100 := by
  unfold clamp
  split_ifs with h1 h2
  · rw [min_eq_left (le_of_lt h1)]; norm_num
  · rw [min_eq_right (by linarith), max_eq_left (le_of_lt h2)]
  · rw [min_eq_right (by linarith), max_eq_right (by linarith)]

/-- With the arithmetic done exactly, the five counters kept inline are the
counters returned by `countUpgradesDowngrades` and `countRatings`, the rating
total `b + s + h` is never negative, and the unrounded score is
`clamp (50 + 10 * (u - d) + R) 0 100` with `R = 30 * (b - s) / (b + s + h)`
when `b + s + h > 0` and `R = 0` otherwise. -/
theorem calculateRecommendationScore_formula (stocks : List Stock) :
    scoreCounters stocks =
      ⟨(countUpgradesDowngrades stocks).1, (countUpgradesDowngrades stocks).2,
       (countRatings stocks).1, (countRatings stocks).2.1, (countRatings stocks).2.2⟩ ∧
    0 ≤ (countRatings stocks).1 + (countRatings stocks).2.1 + (countRatings stocks).2.2 ∧
    calculateRecommendationScore stocks =
      clamp (50 + 10 * (((countUpgradesDowngrades stocks).1 : ℚ)
                - ((countUpgradesDowngrades stocks).2 : ℚ))
              + ratingTerm (countRatings stocks).1 (countRatings stocks).2.1
                  (countRatings stocks).2.2) 0 100 := by
  refine ⟨scoreCounters_eq stocks, ?_, ?_⟩
  · have := countRatings_nonneg stocks; omega
  · unfold calculateRecommendationScore
    rw [scoreCounters_eq]
    generalize (countUpgradesDowngrades stocks).1 = u
    generalize (countUpgradesDowngrades stocks).2 = d
    generalize (countRatings stocks).1 = b
    generalize (countRatings stocks).2.1 = s
    generalize (countRatings stocks).2.2 = h
    simp only []
    rw [clamp_branches]
    congr 1
    unfold ratingTerm
    have e1 : (if u > d then (50 : ℚ) + ((u - d : Int) : ℚ) * 10
        else if d > u then 50 - ((d - u : Int) : ℚ) * 10 else 50)
        = 50 + 10 * ((u : ℚ) - (d : ℚ)) := by
      split_ifs with h1 h2
      · push_cast; ring
      · push_cast; ring
      · have : u = d := by omega
        subst this; ring
    rw [e1]
    split_ifs with ht
    · push_cast; ring
    · ring

/-- Claim C2. For every list of events, of any length and with any action and
rating strings, the score lies between 0 and 100. -/
theorem calculateRecommendationScore_bounds (stocks : List Stock) :
    0 ≤ calculateRecommendationScore stocks ∧ calculateRecommendationScore stocks ≤ 100 := by
  unfold calculateRecommendationScore
  simp only []
  split_ifs <;> constructor <;> linarith

/-! ## Risk level -/

theorem ratio_gt_iff (u t : Int) (ht : 0 < t) :
    ((u : ℚ) / (t : ℚ) > 0.7) ↔ 10 * u > 7 * t := by
  have htq : (0 : ℚ) < (t : ℚ) := by exact_mod_cast ht
  rw [gt_iff_lt, lt_div_iff₀ htq]
  constructor
  · intro h
    have h2 : (7 * t : ℚ) < 10 * u := by norm_num at h; linarith
    exact_mod_cast h2
  · intro h
    have h2 : (7 * t : ℚ) < 10 * u := by exact_mod_cast h
    norm_num; linarith

theorem ratio_lt_iff (u t : Int) (ht : 0 < t) :
    ((u : ℚ) / (t : ℚ) < 0.3) ↔ 10 * u < 3 * t := by
  have htq : (0 : ℚ) < (t : ℚ) := by exact_mod_cast ht
  rw [div_lt_iff₀ htq]
  constructor
  · intro h
    have h2 : (10 * u : ℚ) < 3 * t := by norm_num at h; linarith
    exact_mod_cast h2
  · intro h
    have h2 : (10 * u : ℚ) < 3 * t := by exact_mod_cast h
    norm_num; linarith

/-- Claim C3. With `(u, d) = countUpgradesDowngrades events`, the risk level
is "medium" when `u + d = 0`; otherwise it is "low" exactly when
`10 * u > 7 * (u + d)`, "high" exactly when `10 * u < 3 * (u + d)`, and
"medium" in every remaining case, the two boundary ratios included. -/
theorem calculateRiskLevel_spec (stocks : List Stock) :
    calculateRiskLevel stocks =
      riskLevelSpec (countUpgradesDowngrades stocks).1 (countUpgradesDowngrades stocks).2 ∧
    (calculateRiskLevel stocks = "low" ↔
      (countUpgradesDowngrades stocks).1 + (countUpgradesDowngrades stocks).2 ≠ 0 ∧
      10 * (countUpgradesDowngrades stocks).1 >
        7 * ((countUpgradesDowngrades stocks).1 + (countUpgradesDowngrades stocks).2)) ∧
    (calculateRiskLevel stocks = "high" ↔
      (countUpgradesDowngrades stocks).1 + (countUpgradesDowngrades stocks).2 ≠ 0 ∧
      10 * (countUpgradesDowngrades stocks).1 <
        3 * ((countUpgradesDowngrades stocks).1 + (countUpgradesDowngrades stocks).2)) ∧
    (calculateRiskLevel stocks = "medium" ↔
      (countUpgradesDowngrades stocks).1 + (countUpgradesDowngrades stocks).2 = 0 ∨
      (3 * ((countUpgradesDowngrades stocks).1 + (countUpgradesDowngrades stocks).2) ≤
          10 * (countUpgradesDowngrades stocks).1 ∧
        10 * (countUpgradesDowngrades stocks).1 ≤
          7 * ((countUpgradesDowngrades stocks).1 + (countUpgradesDowngrades stocks).2))) := by
  have hn := countUpgradesDowngrades_nonneg stocks
  have key : calculateRiskLevel stocks =
      riskLevelSpec (countUpgradesDowngrades stocks).1 (countUpgradesDowngrades stocks).2 := by
    unfold calculateRiskLevel riskLevelSpec
    rcases h : countUpgradesDowngrades stocks with ⟨u, d⟩
    rw [h] at hn
    simp only [] at hn ⊢
    by_cases h0 : u + d = 0
    · simp [h0]
    · have ht : 0 < u + d := by omega
      simp only [h0, if_false]
      exact if_congr (ratio_gt_iff u (u + d) ht) rfl
        (if_congr (ratio_lt_iff u (u + d) ht) rfl rfl)
  refine ⟨key, ?_, ?_, ?_⟩ <;> rw [key] <;> unfold riskLevelSpec <;>
    generalize (countUpgradesDowngrades stocks).1 = u at hn ⊢ <;>
    generalize (countUpgradesDowngrades stocks).2 = d at hn ⊢ <;>
    split_ifs <;> simp <;> omega

/-! ## Expected return and sentiment -/

/-- Claim C4. When the upgrade count `u` and the downgrade count `d` differ,
`calculateExpectedReturn` returns `(u - d) * 2.5` in both branches: a strictly
positive value when `u > d`, a strictly negative one when `d > u`. -/
theorem calculateExpectedReturn_net (stocks : List Stock)
    (h : (countUpgradesDowngrades stocks).1 ≠ (countUpgradesDowngrades stocks).2) :
    calculateExpectedReturn stocks =
      (((countUpgradesDowngrades stocks).1 : ℚ) - ((countUpgradesDowngrades stocks).2 : ℚ)) * 2.5 ∧
    ((countUpgradesDowngrades stocks).1 > (countUpgradesDowngrades stocks).2 →
      0 < calculateExpectedReturn stocks) ∧
    ((countUpgradesDowngrades stocks).2 > (countUpgradesDowngrades stocks).1 →
      calculateExpectedReturn stocks < 0) := by
  have hne : stocks.length ≠ 0 := by
    intro h0
    have : stocks = [] := List.length_eq_zero.mp h0
    subst this
    exact h rfl
  have key : calculateExpectedReturn stocks =
      (((countUpgradesDowngrades stocks).1 : ℚ) - ((countUpgradesDowngrades stocks).2 : ℚ)) * 2.5 := by
    unfold calculateExpectedReturn
    rw [if_neg hne]
    rcases hc : countUpgradesDowngrades stocks with ⟨u, d⟩
    rw [hc] at h
    simp only [] at h ⊢
    split_ifs with h1 h2
    · push_cast; ring
    · push_cast; ring
    · exact absurd (by omega : u = d) h
  refine ⟨key, ?_, ?_⟩
  · intro hgt
    rw [key]
    have : ((countUpgradesDowngrades stocks).2 : ℚ) < ((countUpgradesDowngrades stocks).1 : ℚ) := by
      exact_mod_cast hgt
    norm_num; linarith
  · intro hgt
    rw [key]
    have : ((countUpgradesDowngrades stocks).1 : ℚ) < ((countUpgradesDowngrades stocks).2 : ℚ) := by
      exact_mod_cast hgt
    norm_num
    nlinarith

theorem calculateExpectedReturn_net_witness :
    (countUpgradesDowngrades [exampleEvent "Downgraded" "Sell"]).1 ≠
        (countUpgradesDowngrades [exampleEvent "Downgraded" "Sell"]).2 ∧
    calculateExpectedReturn [exampleEvent "Downgraded" "Sell"] < 0 :=
  ⟨by decide,
   (calculateExpectedReturn_net [exampleEvent "Downgraded" "Sell"] (by decide)).2.2 (by decide)⟩

/-- Claim C5. The sentiment is "bullish" if and only if `u > d` and `b > s`,
"bearish" if and only if `d > u` and `s > b`, "neutral" in every other case,
and it is always one of these three strings. -/
theorem calculateAnalystSentiment_spec (stocks : List Stock) :
    (calculateAnalystSentiment stocks = "bullish" ↔
      (countUpgradesDowngrades stocks).1 > (countUpgradesDowngrades stocks).2 ∧
      (countRatings stocks).1 > (countRatings stocks).2.1) ∧
    (calculateAnalystSentiment stocks = "bearish" ↔
      (countUpgradesDowngrades stocks).2 > (countUpgradesDowngrades stocks).1 ∧
      (countRatings stocks).2.1 > (countRatings stocks).1) ∧
    (calculateAnalystSentiment stocks = "neutral" ↔
      ¬ ((countUpgradesDowngrades stocks).1 > (countUpgradesDowngrades stocks).2 ∧
          (countRatings stocks).1 > (countRatings stocks).2.1) ∧
      ¬ ((countUpgradesDowngrades stocks).2 > (countUpgradesDowngrades stocks).1 ∧
          (countRatings stocks).2.1 > (countRatings stocks).1)) ∧
    (calculateAnalystSentiment stocks = "bullish" ∨
      calculateAnalystSentiment stocks = "bearish" ∨
      calculateAnalystSentiment stocks = "neutral") := by
  unfold calculateAnalystSentiment
  rcases countUpgradesDowngrades stocks with ⟨u, d⟩
  rcases countRatings stocks with ⟨b, s, h⟩
  simp only [Bool.and_eq_true, decide_eq_true_eq]
  split_ifs with h1 h2
  · refine ⟨?_, ?_, ?_, ?_⟩ <;> simp [h1]
    omega
  · refine ⟨?_, ?_, ?_, ?_⟩ <;> simp [h2]
    omega
  · refine ⟨?_, ?_, ?_, ?_⟩ <;> simp <;> omega

/-! ## Reason -/

theorem intercalate_go_append (sep : String) (l : List String) (acc x : String) :
    String.intercalate.go (acc ++ x) sep l = acc ++ String.intercalate.go x sep l := by
  induction l generalizing x with
  | nil => simp [String.intercalate.go]
  | cons b rest ih =>
    simp only [String.intercalate.go]
    rw [String.append_assoc, String.append_assoc, ← String.append_assoc x, ih]

theorem Join_eq_intercalate (l : List String) (sep : String) :
    strings.Join l sep = sep.intercalate l := by
  induction l with
  | nil => rfl
  | cons a rest ih =>
    cases rest with
    | nil => rfl
    | cons b rest =>
      rw [strings.Join, ih]
      simp only [String.intercalate, String.intercalate.go]
      rw [String.append_assoc, intercalate_go_append]
      simp [String.append_assoc]

theorem Join_length_pos (a : String) (rest : List String) (sep : String)
    (ha : 0 < a.length) : 0 < (strings.Join (a :: rest) sep).length := by
  cases rest with
  | nil => simpa [strings.Join] using ha
  | cons b rest =>
    rw [strings.Join, String.length_append, String.length_append]
    omega

theorem length_pos_ne_empty (s : String) (h : 0 < s.length) : s ≠ "" := by
  intro h0
  subst h0
  simp at h

theorem actionClause_pos (u d : Int) (c : String) (h : actionClause u d = some c) :
    0 < c.length := by
  unfold actionClause at h
  split_ifs at h <;> simp at h <;> subst h <;> simp [String.length_append] <;>
    exact Or.inr (by decide)

theorem ratingClause_pos (b s : Int) (c : String) (h : ratingClause b s = some c) :
    0 < c.length := by
  unfold ratingClause at h
  split_ifs at h <;> simp at h <;> subst h <;> simp [String.length_append] <;>
    exact Or.inr (by decide)

theorem scoreClause_pos (score : ℚ) (c : String) (h : scoreClause score = some c) :
    0 < c.length := by
  unfold scoreClause at h
  split_ifs at h <;> simp at h <;> subst h <;> decide

theorem generateReason_eq (stocks : List Stock) (score : ℚ) :
    generateReason stocks score =
      reasonSpec (countUpgradesDowngrades stocks).1 (countUpgradesDowngrades stocks).2
        (countRatings stocks).1 (countRatings stocks).2.1 score := by
  unfold generateReason reasonSpec
  rcases countUpgradesDowngrades stocks with ⟨u, d⟩
  rcases countRatings stocks with ⟨b, s, h⟩
  simp only [← Join_eq_intercalate]
  by_cases h1 : u > d <;> by_cases h1' : d > u <;>
  by_cases h2 : b > s <;> by_cases h2' : s > b <;>
  by_cases h3 : score ≥ 70 <;> by_cases h4 : score ≤ 30 <;>
  first
  | (exfalso; omega)
  | (exfalso; linarith)
  | simp [actionClause, ratingClause, scoreClause, List.reduceOption, strings.Join,
      h1, h1', h2, h2', h3, h4]

/-- Claim C6. For every list of events and every score, `generateReason`
returns the clauses that apply, in the order action clause, rating clause,
score clause, joined by "; ", or the text "Mixed analyst opinions" when no
clause applies (`reasonSpec`); the result is never the empty string. -/
theorem generateReason_spec (stocks : List Stock) (score : float64) :
    generateReason stocks score =
      reasonSpec (countUpgradesDowngrades stocks).1 (countUpgradesDowngrades stocks).2
        (countRatings stocks).1 (countRatings stocks).2.1 score ∧
    generateReason stocks score ≠ "" := by
  refine ⟨generateReason_eq stocks score, ?_⟩
  rw [generateReason_eq]
  unfold reasonSpec
  generalize (countUpgradesDowngrades stocks).1 = u
  generalize (countUpgradesDowngrades stocks).2 = d
  generalize (countRatings stocks).1 = b
  generalize (countRatings stocks).2.1 = s
  simp only []
  split_ifs with hc
  · decide
  · rcases hl : [actionClause u d, ratingClause b s, scoreClause score].reduceOption
      with _ | ⟨c, rest⟩
    · exact absurd hl hc
    · have hmem : c ∈ [actionClause u d, ratingClause b s, scoreClause score].reduceOption := by
        rw [hl]; exact List.mem_cons_self _ _
      rw [List.reduceOption_mem_iff] at hmem
      have hpos : 0 < c.length := by
        simp only [List.mem_cons, List.mem_singleton, List.not_mem_nil, or_false] at hmem
        rcases hmem with h | h | h
        · exact actionClause_pos u d c h.symm
        · exact ratingClause_pos b s c h.symm
        · exact scoreClause_pos score c h.symm
      apply length_pos_ne_empty
      rw [← Join_eq_intercalate]
      exact Join_length_pos c rest "; " hpos

/-! ## Classification of actions and ratings -/

/-- Claim C7. `countUpgradesDowngrades` returns `(u, d)` where `u` counts the
events whose lower-cased action contains "upgrade" and `d` those whose
lower-cased action contains "downgrade" but not "upgrade"; `u + d` is at most
the number of events; a single event is counted once, as an upgrade when it
matches both words; writing an action in upper case does not change how it is
classified. -/
theorem countUpgradesDowngrades_spec (stocks : List Stock) :
    countUpgradesDowngrades stocks =
      (((stocks.countP isUpgrade : Nat) : Int),
       ((stocks.countP (fun e => isDowngrade e && !isUpgrade e) : Nat) : Int)) ∧
    (countUpgradesDowngrades stocks).1 + (countUpgradesDowngrades stocks).2
      ≤ (stocks.length : Int) ∧
    (∀ e : Stock, countUpgradesDowngrades [e] =
      if isUpgrade e then (1, 0) else if isDowngrade e then (0, 1) else (0, 0)) ∧
    (∀ e : Stock, isUpgrade { e with Action := ⟨e.Action.data.map Char.toUpper⟩ } = isUpgrade e ∧
      isDowngrade { e with Action := ⟨e.Action.data.map Char.toUpper⟩ } = isDowngrade e) := by
  refine ⟨countUpgradesDowngrades_eq stocks, ?_, ?_, ?_⟩
  · rw [countUpgradesDowngrades_eq]
    have := countP_disjoint_two stocks isUpgrade (fun e => isDowngrade e && !isUpgrade e)
      (by intro e he; simp [he])
    simp only []
    exact_mod_cast this
  · intro e
    rw [countUpgradesDowngrades_eq]
    cases hu : isUpgrade e <;> cases hd : isDowngrade e <;> simp [List.countP_cons, hu, hd]
  · intro e
    have : strings.ToLower ⟨e.Action.data.map Char.toUpper⟩ = strings.ToLower e.Action := by
      unfold strings.ToLower
      simp [List.map_map, Function.comp_def, toLowerRune_toUpper]
    simp [isUpgrade, isDowngrade, this]

/-- Claim C8. `countRatings` returns `(b, s, h)` where every event is counted
in at most one bucket, the first family its lower-cased rating matches in the
order buy ("buy", "outperform"), sell ("sell", "underperform"), hold ("hold",
"neutral"); `b + s + h` is at most the number of events, and a rating that
contains both "buy" and "sell" counts as buy only. -/
theorem countRatings_spec (stocks : List Stock) :
    countRatings stocks =
      (((stocks.countP isBuy : Nat) : Int),
       ((stocks.countP (fun e => !isBuy e && isSell e) : Nat) : Int),
       ((stocks.countP (fun e => !isBuy e && !isSell e && isHold e) : Nat) : Int)) ∧
    (countRatings stocks).1 + (countRatings stocks).2.1 + (countRatings stocks).2.2
      ≤ (stocks.length : Int) ∧
    (∀ e : Stock, countRatings [e] =
      if isBuy e then (1, 0, 0) else if isSell e then (0, 1, 0)
      else if isHold e then (0, 0, 1) else (0, 0, 0)) ∧
    (∀ e : Stock, strings.Contains (strings.ToLower e.RatingTo) "buy" = true →
      strings.Contains (strings.ToLower e.RatingTo) "sell" = true →
      countRatings [e] = (1, 0, 0)) := by
  have single : ∀ e : Stock, countRatings [e] =
      if isBuy e then (1, 0, 0) else if isSell e then (0, 1, 0)
      else if isHold e then (0, 0, 1) else (0, 0, 0) := by
    intro e
    rw [countRatings_eq]
    cases hb : isBuy e <;> cases hs : isSell e <;> cases hh : isHold e <;>
      simp [List.countP_cons, hb, hs, hh]
  refine ⟨countRatings_eq stocks, ?_, single, ?_⟩
  · rw [countRatings_eq]
    have := countP_disjoint_three stocks isBuy (fun e => !isBuy e && isSell e)
      (fun e => !isBuy e && !isSell e && isHold e)
      (by intro e he; simp [he]) (by intro e he; simp [he])
      (by intro e he; simp at he; simp [he])
    simp only []
    exact_mod_cast this
  · intro e hb _
    rw [single]
    simp [isBuy, hb]

/-! ## Grouping by ticker -/

theorem StockMap.get_set_same (m : StockMap) (k : String) (v : List Stock) :
    StockMap.get (StockMap.set m k v) k = v := by
  induction m with
  | nil => simp [StockMap.set, StockMap.get]
  | cons p m ih =>
    obtain ⟨k', v'⟩ := p
    by_cases h : k' = k
    · simp [StockMap.set, StockMap.get, h]
    · simp [StockMap.set, StockMap.get, h, ih]

theorem StockMap.get_set_other (m : StockMap) (k k' : String) (v : List Stock)
    (hk : k' ≠ k) : StockMap.get (StockMap.set m k v) k' = StockMap.get m k' := by
  induction m with
  | nil => simp [StockMap.set, StockMap.get, Ne.symm hk]
  | cons p m ih =>
    obtain ⟨k0, v0⟩ := p
    by_cases h : k0 = k
    · subst h
      simp [StockMap.set, StockMap.get, Ne.symm hk]
    · by_cases h' : k0 = k'
      · subst h'
        simp [StockMap.set, StockMap.get, h]
      · simp [StockMap.set, StockMap.get, h, h', ih]

theorem StockMap.mem_keys_set (m : StockMap) (k t : String) (v : List Stock) :
    t ∈ StockMap.keys (StockMap.set m k v) ↔ t ∈ (StockMap.keys m) ∨ t = k := by
  induction m with
  | nil => simp [StockMap.set, StockMap.keys]
  | cons p m ih =>
    obtain ⟨k0, v0⟩ := p
    by_cases h : k0 = k
    · subst h
      simp only [StockMap.set, if_true, StockMap.keys, List.map_cons, List.mem_cons]
      constructor
      · rintro (h | h)
        · exact Or.inr h
        · exact Or.inl (Or.inr h)
      · rintro ((h | h) | h)
        · exact Or.inl h
        · exact Or.inr h
        · exact Or.inl h
    · simp only [StockMap.keys] at ih
      simp [StockMap.set, StockMap.keys, h, ih, or_assoc]

theorem StockMap.nodup_keys_set (m : StockMap) (k : String) (v : List Stock)
    (hm : (StockMap.keys m).Nodup) : (StockMap.keys (StockMap.set m k v)).Nodup := by
  induction m with
  | nil => simp [StockMap.set, StockMap.keys]
  | cons p m ih =>
    obtain ⟨k0, v0⟩ := p
    by_cases h : k0 = k
    · subst h
      simpa [StockMap.set, StockMap.keys] using hm
    · have hm' : k0 ∉ (StockMap.keys m) ∧ (StockMap.keys m).Nodup := by
        simpa [StockMap.keys] using hm
      have hnot : k0 ∉ StockMap.keys (StockMap.set m k v) := by
        rw [StockMap.mem_keys_set]
        rintro (h1 | h1)
        · exact hm'.1 h1
        · exact h h1
      have := ih hm'.2
      simp only [StockMap.set, h, if_false]
      simp only [StockMap.keys, List.map_cons, List.nodup_cons]
      exact ⟨hnot, this⟩

theorem StockMap.get_of_mem (m : StockMap) (hm : (StockMap.keys m).Nodup) (k : String) (v : List Stock)
    (h : (k, v) ∈ m) : StockMap.get m k = v := by
  induction m with
  | nil => simp at h
  | cons p m ih =>
    obtain ⟨k0, v0⟩ := p
    have hm' : k0 ∉ (StockMap.keys m) ∧ (StockMap.keys m).Nodup := by
      simpa [StockMap.keys] using hm
    rcases List.mem_cons.mp h with h1 | h1
    · cases h1
      simp [StockMap.get]
    · have hk : k ∈ (StockMap.keys m) := List.mem_map.mpr ⟨(k, v), h1, rfl⟩
      have hne : k0 ≠ k := by
        rintro rfl
        exact hm'.1 hk
      simp [StockMap.get, hne, ih hm'.2 h1]

theorem stockGroups_foldl (stocks : List Stock) (m : StockMap) (hm : (StockMap.keys m).Nodup) :
    let r := stocks.foldl
      (fun (m : StockMap) stock => StockMap.set m stock.Ticker (StockMap.get m stock.Ticker ++ [stock])) m
    (∀ t : String, StockMap.get r t = StockMap.get m t ++ stocks.filter (fun e => e.Ticker = t)) ∧
    (StockMap.keys r).Nodup ∧
    (∀ t : String, t ∈ (StockMap.keys r) ↔ t ∈ (StockMap.keys m) ∨ ∃ e ∈ stocks, e.Ticker = t) := by
  induction stocks generalizing m with
  | nil => simp [hm]
  | cons x xs ih =>
    simp only [List.foldl_cons]
    have hm2 := StockMap.nodup_keys_set m x.Ticker (StockMap.get m x.Ticker ++ [x]) hm
    obtain ⟨h1, h2, h3⟩ := ih _ hm2
    refine ⟨?_, h2, ?_⟩
    · intro t
      rw [h1 t]
      by_cases ht : x.Ticker = t
      · subst ht
        rw [StockMap.get_set_same]
        simp [List.filter_cons]
      · rw [StockMap.get_set_other _ _ _ _ (Ne.symm ht)]
        simp [List.filter_cons, ht]
    · intro t
      rw [h3 t, StockMap.mem_keys_set]
      constructor
      · rintro ((h | h) | ⟨e, he, het⟩)
        · exact Or.inl h
        · exact Or.inr ⟨x, List.mem_cons_self _ _, h.symm⟩
        · exact Or.inr ⟨e, List.mem_cons_of_mem _ he, het⟩
      · rintro (h | ⟨e, he, het⟩)
        · exact Or.inl (Or.inl h)
        · rcases List.mem_cons.mp he with rfl | he
          · exact Or.inl (Or.inr het.symm)
          · exact Or.inr ⟨e, he, het⟩


theorem sum_indicator_eq_count (K : List String) (a : String) :
    (K.map (fun t => if a = t then 1 else 0)).sum = K.count a := by
  induction K with
  | nil => simp
  | cons k K ih =>
    simp only [List.map_cons, List.sum_cons, ih, List.count_cons]
    by_cases h : a = k
    · subst h; simp; omega
    · have h' : ¬ k = a := fun hh => h hh.symm
      simp [h, h']

theorem sum_group_lengths (K : List String) (hK : K.Nodup) (l : List Stock)
    (hall : ∀ e ∈ l, e.Ticker ∈ K) :
    (K.map (fun t => (l.filter (fun e => e.Ticker = t)).length)).sum = l.length := by
  induction l with
  | nil => simp
  | cons x xs ih =>
    have hx : x.Ticker ∈ K := hall x (List.mem_cons_self _ _)
    have hxs : ∀ e ∈ xs, e.Ticker ∈ K := fun e he => hall e (List.mem_cons_of_mem _ he)
    have hfun : (fun t => ((x :: xs).filter (fun e => e.Ticker = t)).length) =
        (fun t => (if x.Ticker = t then 1 else 0)
          + (xs.filter (fun e => e.Ticker = t)).length) := by
      funext t
      by_cases h : x.Ticker = t
      · simp [List.filter_cons, h]; omega
      · simp [List.filter_cons, h]
    rw [hfun, List.sum_map_add, ih hxs, sum_indicator_eq_count,
      List.count_eq_one_of_mem hK hx, List.length_cons]
    omega

/-- Claim C9. After the grouping loop, the group read under a ticker `t` is
the sub-list of the input events whose `Ticker` equals `t`, in input order;
every entry `(t, g)` of the map holds exactly that sub-list and it is not
empty; the keys are pairwise distinct and are the tickers that occur in the
input; every input event lies in the group of its own ticker and in no other;
the group sizes add up to the number of events; the number of keys is the
number of distinct tickers. -/
theorem stockGroups_spec (stocks : List Stock) :
    (∀ t : String,
      StockMap.get (stockGroups stocks) t = stocks.filter (fun e => e.Ticker = t)) ∧
    (∀ (t : String) (g : List Stock), (t, g) ∈ stockGroups stocks →
      g = stocks.filter (fun e => e.Ticker = t) ∧ g ≠ []) ∧
    (StockMap.keys (stockGroups stocks)).Nodup ∧
    (∀ t : String, t ∈ StockMap.keys (stockGroups stocks) ↔ ∃ e ∈ stocks, e.Ticker = t) ∧
    (∀ e ∈ stocks, e.Ticker ∈ StockMap.keys (stockGroups stocks) ∧
      e ∈ StockMap.get (stockGroups stocks) e.Ticker ∧
      ∀ t : String, e ∈ StockMap.get (stockGroups stocks) t → t = e.Ticker) ∧
    ((StockMap.keys (stockGroups stocks)).map
        (fun t => (StockMap.get (stockGroups stocks) t).length)).sum = stocks.length ∧
    (StockMap.keys (stockGroups stocks)).length
      = (stocks.map (fun e => e.Ticker)).toFinset.card := by
  obtain ⟨h1, h2, h3⟩ := stockGroups_foldl stocks [] (by simp [StockMap.keys])
  have hget : ∀ t : String,
      StockMap.get (stockGroups stocks) t = stocks.filter (fun e => e.Ticker = t) := by
    intro t
    have := h1 t
    simpa [StockMap.get] using this
  have hkeys : ∀ t : String,
      t ∈ StockMap.keys (stockGroups stocks) ↔ ∃ e ∈ stocks, e.Ticker = t := by
    intro t
    have := h3 t
    simpa [StockMap.keys] using this
  have hnodup : (StockMap.keys (stockGroups stocks)).Nodup := h2
  refine ⟨hget, ?_, hnodup, hkeys, ?_, ?_, ?_⟩
  · intro t g hmem
    have hg : StockMap.get (stockGroups stocks) t = g :=
      StockMap.get_of_mem _ hnodup t g hmem
    rw [hget] at hg
    refine ⟨hg.symm, ?_⟩
    have ht : t ∈ StockMap.keys (stockGroups stocks) := List.mem_map.mpr ⟨(t, g), hmem, rfl⟩
    obtain ⟨e, he, het⟩ := (hkeys t).mp ht
    intro hnil
    have : e ∈ stocks.filter (fun e => e.Ticker = t) := by
      simp [List.mem_filter, he, het]
    rw [hg, hnil] at this
    simp at this
  · intro e he
    refine ⟨(hkeys _).mpr ⟨e, he, rfl⟩, ?_, ?_⟩
    · rw [hget]; simp [List.mem_filter, he]
    · intro t ht
      rw [hget] at ht
      simp [List.mem_filter] at ht
      exact ht.2.symm
  · simp only [hget]
    exact sum_group_lengths _ hnodup stocks (fun e he => (hkeys _).mpr ⟨e, he, rfl⟩)
  · rw [← List.toFinset_card_of_nodup hnodup]
    congr 1
    ext t
    simp only [List.mem_toFinset, List.mem_map]
    exact hkeys t

/-! ## Representative event of a group -/

theorem latest_foldl (l : List Stock) (a : Stock) :
    let r := l.foldl
      (fun latest stock => if time.Time.After stock.Time latest.Time then stock else latest) a
    (r = a ∧ ∀ e ∈ l, e.Time ≤ a.Time) ∨
    (∃ i : Nat, l[i]? = some r ∧ a.Time < r.Time ∧ (∀ e ∈ l, e.Time ≤ r.Time) ∧
      ∀ j : Nat, j < i → ∀ e : Stock, l[j]? = some e → e.Time < r.Time) := by
  induction l generalizing a with
  | nil => simp
  | cons x xs ih =>
    simp only [List.foldl_cons]
    by_cases hx : a.Time < x.Time
    · have hA : time.Time.After x.Time a.Time = true := by simp [time.Time.After, hx]
      rw [hA]
      simp only [if_true]
      right
      rcases ih x with ⟨hr, hall⟩ | ⟨i, hi, hlt, hall, hfirst⟩
      · refine ⟨0, by simp [hr], by rw [hr]; exact hx, ?_, by intro j hj; omega⟩
        intro e he
        rw [hr]
        rcases List.mem_cons.mp he with rfl | he
        · exact le_refl _
        · exact hall e he
      · refine ⟨i + 1, by simpa using hi, lt_trans hx hlt, ?_, ?_⟩
        · intro e he
          rcases List.mem_cons.mp he with rfl | he
          · exact le_of_lt hlt
          · exact hall e he
        · intro j hj e hje
          cases j with
          | zero =>
            simp at hje
            subst hje
            exact hlt
          | succ j => exact hfirst j (by omega) e (by simpa using hje)
    · have hA : time.Time.After x.Time a.Time = false := by simp [time.Time.After, hx]
      rw [hA]
      simp only [Bool.false_eq_true, if_false]
      have hxa : x.Time ≤ a.Time := not_lt.mp hx
      rcases ih a with ⟨hr, hall⟩ | ⟨i, hi, hlt, hall, hfirst⟩
      · left
        refine ⟨hr, ?_⟩
        intro e he
        rcases List.mem_cons.mp he with rfl | he
        · exact hxa
        · exact hall e he
      · right
        refine ⟨i + 1, by simpa using hi, hlt, ?_, ?_⟩
        · intro e he
          rcases List.mem_cons.mp he with rfl | he
          · exact le_of_lt (lt_of_le_of_lt hxa hlt)
          · exact hall e he
        · intro j hj e hje
          cases j with
          | zero =>
            simp at hje
            subst hje
            exact lt_of_le_of_lt hxa hlt
          | succ j => exact hfirst j (by omega) e (by simpa using hje)

/-- Claim C10. For a non-empty group, `latestStock` is a member of the group
with maximal `Time`, and among the members sharing that maximal `Time` it is
the one at the smallest position: every member before it is strictly earlier.
These conditions determine the position and the event, so the choice is a
function of the ordered group alone. -/
theorem latestStock_spec (tickerStocks : List Stock) (hne : tickerStocks ≠ []) :
    ∃ (r : Stock) (i : Nat), latestStock tickerStocks = some r ∧ tickerStocks[i]? = some r ∧
      r ∈ tickerStocks ∧
      (∀ e ∈ tickerStocks, e.Time ≤ r.Time) ∧
      (∀ j : Nat, j < i → ∀ e : Stock, tickerStocks[j]? = some e → e.Time < r.Time) ∧
      (∀ (r' : Stock) (i' : Nat), tickerStocks[i']? = some r' →
        (∀ e ∈ tickerStocks, e.Time ≤ r'.Time) →
        (∀ j : Nat, j < i' → ∀ e : Stock, tickerStocks[j]? = some e → e.Time < r'.Time) →
        i' = i ∧ r' = r) := by
  have main : ∃ (r : Stock) (i : Nat), latestStock tickerStocks = some r ∧ tickerStocks[i]? = some r ∧
      (∀ e ∈ tickerStocks, e.Time ≤ r.Time) ∧
      (∀ j : Nat, j < i → ∀ e : Stock, tickerStocks[j]? = some e → e.Time < r.Time) := by
    cases tickerStocks with
    | nil => exact absurd rfl hne
    | cons first rest =>
      have h := latest_foldl (first :: rest) first
      simp only [] at h
      rcases h with ⟨hr, hall⟩ | ⟨i, hi, _, hall, hfirst⟩
      · refine ⟨first, 0, ?_, by simp, hall, by intro j hj; omega⟩
        simp only [latestStock]
        rw [hr]
      · exact ⟨_, i, rfl, hi, hall, hfirst⟩
  obtain ⟨r, i, hr, hi, hall, hfirst⟩ := main
  refine ⟨r, i, hr, hi, List.getElem?_mem hi, hall, hfirst, ?_⟩
  intro r' i' hi' hall' hfirst'
  have hii : i' = i := by
    rcases lt_trichotomy i' i with h | h | h
    · have h1 := hfirst i' h r' hi'
      have h2 := hall' r (List.getElem?_mem hi)
      exact absurd h1 (not_lt.mpr h2)
    · exact h
    · have h1 := hfirst' i h r hi
      have h2 := hall r' (List.getElem?_mem hi')
      exact absurd h1 (not_lt.mpr h2)
  subst hii
  rw [hi] at hi'
  exact ⟨rfl, (Option.some.inj hi').symm⟩

theorem latestStock_spec_witness :
    tieGroup ≠ [] ∧ latestStock tieGroup = some (timedEvent 2 7) ∧
    ∃ (r : Stock) (i : Nat), latestStock tieGroup = some r ∧ tieGroup[i]? = some r ∧
      r ∈ tieGroup ∧
      (∀ e ∈ tieGroup, e.Time ≤ r.Time) ∧
      (∀ j : Nat, j < i → ∀ e : Stock, tieGroup[j]? = some e → e.Time < r.Time) ∧
      (∀ (r' : Stock) (i' : Nat), tieGroup[i']? = some r' →
        (∀ e ∈ tieGroup, e.Time ≤ r'.Time) →
        (∀ j : Nat, j < i' → ∀ e : Stock, tieGroup[j]? = some e → e.Time < r'.Time) →
        i' = i ∧ r' = r) :=
  ⟨by decide, by decide, latestStock_spec tieGroup (by decide)⟩

/-! ## The generation run -/

theorem stockGroups_get (stocks : List Stock) (t : String) :
    StockMap.get (stockGroups stocks) t = tickerGroup stocks t := by
  have h := (stockGroups_foldl stocks [] (by simp [StockMap.keys])).1 t
  simpa [StockMap.get, tickerGroup] using h

theorem stockGroups_keys_nodup (stocks : List Stock) :
    (StockMap.keys (stockGroups stocks)).Nodup :=
  (stockGroups_foldl stocks [] (by simp [StockMap.keys])).2.1

theorem stockGroups_mem_keys (stocks : List Stock) (t : String) :
    t ∈ StockMap.keys (stockGroups stocks) ↔ ∃ e ∈ stocks, e.Ticker = t := by
  have h := (stockGroups_foldl stocks [] (by simp [StockMap.keys])).2.2 t
  simpa [StockMap.keys] using h

theorem stockGroups_entry (stocks : List Stock) (t : String) (g : List Stock)
    (h : (t, g) ∈ stockGroups stocks) : g = tickerGroup stocks t ∧ g ≠ [] := by
  have hg : StockMap.get (stockGroups stocks) t = g :=
    StockMap.get_of_mem _ (stockGroups_keys_nodup stocks) t g h
  rw [stockGroups_get] at hg
  refine ⟨hg.symm, ?_⟩
  have ht : t ∈ StockMap.keys (stockGroups stocks) := List.mem_map.mpr ⟨(t, g), h, rfl⟩
  obtain ⟨e, he, het⟩ := (stockGroups_mem_keys stocks t).mp ht
  intro hnil
  have : e ∈ tickerGroup stocks t := by
    simp [tickerGroup, List.mem_filter, he, het]
  rw [hg, hnil] at this
  simp at this

theorem latestStock_isSome (g : List Stock) (hg : g ≠ []) : ∃ r, latestStock g = some r := by
  cases g with
  | nil => exact absurd rfl hg
  | cons a rest => exact ⟨_, rfl⟩

theorem generateRecommendationsBody_eq {σ : Type} (repo : StockRepository σ) (st : σ)
    (entry : String × List Stock) :
    generateRecommendationsBody repo st entry =
      submitAll repo st (groupRecommendation entry.2).toList := by
  unfold generateRecommendationsBody groupRecommendation
  cases h : latestStock entry.2 <;> simp [submitAll, recommendationOf, h]

theorem submitAll_append {σ : Type} (repo : StockRepository σ) (st : σ)
    (xs ys : List StockRecommendation) :
    submitAll repo st (xs ++ ys) = submitAll repo (submitAll repo st xs) ys := by
  simp [submitAll, List.foldl_append]

theorem generateLoop_eq {σ : Type} (repo : StockRepository σ)
    (entries : List (String × List Stock)) (st : σ) :
    entries.foldl (generateRecommendationsBody repo) st =
      submitAll repo st ((entries.map Prod.snd).filterMap groupRecommendation) := by
  induction entries generalizing st with
  | nil => rfl
  | cons entry rest ih =>
    rw [List.foldl_cons, ih, generateRecommendationsBody_eq]
    cases h : groupRecommendation entry.2 with
    | none => simp [List.filterMap_cons, h, submitAll]
    | some r =>
      simp only [List.map_cons, List.filterMap_cons, h, Option.toList]
      rfl

theorem GenerateRecommendations_ok {σ : Type} (repo : StockRepository σ)
    (rangeOrder : StockMap → List (String × List Stock)) (st : σ) (stocks : List Stock)
    (hget : repo.GetAll st 10000 0 = .ok stocks) (hne : stocks ≠ []) :
    GenerateRecommendations repo rangeOrder st =
      (submitAll repo st
        (((rangeOrder (stockGroups stocks)).map Prod.snd).filterMap groupRecommendation),
       none) := by
  unfold GenerateRecommendations
  rw [hget]
  have hlen : stocks.length ≠ 0 := fun h => hne (List.length_eq_zero.mp h)
  simp only [hlen, if_false, generateLoop_eq]


theorem visited_entries_forall₂ (stocks : List Stock) (entries : List (String × List Stock))
    (hmem : ∀ p ∈ entries, p ∈ stockGroups stocks) :
    List.Forall₂
      (fun (t : String) (rec : StockRecommendation) =>
        ∃ r : Stock, latestStock (tickerGroup stocks t) = some r ∧
          rec = recommendationOf (tickerGroup stocks t) r)
      (entries.map Prod.fst)
      ((entries.map Prod.snd).filterMap groupRecommendation) := by
  induction entries with
  | nil => exact List.Forall₂.nil
  | cons p rest ih =>
    obtain ⟨t, g⟩ := p
    have hp := stockGroups_entry stocks t g (hmem (t, g) (List.mem_cons_self _ _))
    obtain ⟨r, hr⟩ := latestStock_isSome g hp.2
    have hrec : groupRecommendation g = some (recommendationOf g r) := by
      simp [groupRecommendation, hr]
    simp only [List.map_cons, List.filterMap_cons, hrec]
    refine List.Forall₂.cons ?_ (ih (fun q hq => hmem q (List.mem_cons_of_mem _ hq)))
    rw [← hp.1]
    exact ⟨r, hr, rfl⟩

theorem visited_tickers_perm (stocks : List Stock)
    (entries : List (String × List Stock)) (hperm : entries.Perm (stockGroups stocks)) :
    (entries.map Prod.fst).Perm (stocks.map (fun e => e.Ticker)).dedup := by
  refine (hperm.map Prod.fst).trans ?_
  refine (List.perm_ext_iff_of_nodup (stockGroups_keys_nodup stocks) (List.nodup_dedup _)).mpr ?_
  intro t
  have h := stockGroups_mem_keys stocks t
  simp only [StockMap.keys] at h
  exact h.trans (by simp [List.mem_dedup])

/-- When `GetAll(10000, 0)` returns the non-empty list `stocks` and `range`
visits every entry of the map once, the run succeeds and submits one
recommendation per distinct ticker of `stocks`: for a visited ticker `t`, the
recommendation `recommendationOf` of the whole group of `t` in `stocks` and of
its representative event. -/
theorem GenerateRecommendations_returned {σ : Type} (repo : StockRepository σ)
    (rangeOrder : StockMap → List (String × List Stock)) (st : σ) (stocks : List Stock)
    (hget : repo.GetAll st 10000 0 = .ok stocks) (hne : stocks ≠ [])
    (hperm : (rangeOrder (stockGroups stocks)).Perm (stockGroups stocks)) :
    ∃ recs : List StockRecommendation,
      GenerateRecommendations repo rangeOrder st = (submitAll repo st recs, none) ∧
      ((rangeOrder (stockGroups stocks)).map Prod.fst).Perm
        (stocks.map (fun e => e.Ticker)).dedup ∧
      recs.length = (stocks.map (fun e => e.Ticker)).dedup.length ∧
      List.Forall₂
        (fun (t : String) (rec : StockRecommendation) =>
          ∃ r : Stock, latestStock (tickerGroup stocks t) = some r ∧
            rec = recommendationOf (tickerGroup stocks t) r)
        ((rangeOrder (stockGroups stocks)).map Prod.fst) recs := by
  have hF := visited_entries_forall₂ stocks (rangeOrder (stockGroups stocks))
    (fun p hp => hperm.mem_iff.mp hp)
  have hP := visited_tickers_perm stocks (rangeOrder (stockGroups stocks)) hperm
  refine ⟨_, GenerateRecommendations_ok repo rangeOrder st stocks hget hne, hP, ?_, hF⟩
  rw [← hF.length_eq, hP.length_eq]

/-- Claim C12. When the store returns zero events without an error, the run
returns the error "no stocks available for analysis", not success, and the
store is left as it was: no recommendation is submitted. -/
theorem GenerateRecommendations_empty {σ : Type} (repo : StockRepository σ)
    (rangeOrder : StockMap → List (String × List Stock)) (st : σ)
    (hget : repo.GetAll st 10000 0 = .ok []) :
    GenerateRecommendations repo rangeOrder st =
      (submitAll repo st [], some "no stocks available for analysis") ∧
    (GenerateRecommendations repo rangeOrder st).1 = st ∧
    (GenerateRecommendations repo rangeOrder st).2 ≠ none := by
  unfold GenerateRecommendations
  rw [hget]
  simp [submitAll]

theorem GenerateRecommendations_empty_witness :
    (memoryRepo (fun _ => false)).GetAll ⟨[], []⟩ 10000 0 = .ok [] ∧
    GenerateRecommendations (memoryRepo (fun _ => false)) id ⟨[], []⟩ =
      (⟨[], []⟩, some "no stocks available for analysis") :=
  ⟨rfl, (GenerateRecommendations_empty (memoryRepo (fun _ => false)) id ⟨[], []⟩ rfl).1⟩

theorem submitAll_memoryRepo (fails : StockRecommendation → Bool) (db : Store)
    (recs : List StockRecommendation) :
    submitAll (memoryRepo fails) db recs = ⟨db.stocks, db.submitted ++ recs⟩ := by
  induction recs generalizing db with
  | nil => simp [submitAll]
  | cons r rest ih =>
    have hstep : submitAll (memoryRepo fails) db (r :: rest) =
        submitAll (memoryRepo fails) ⟨db.stocks, db.submitted ++ [r]⟩ rest := rfl
    rw [hstep, ih]
    simp

theorem memoryRepo_GetAll (fails : StockRecommendation → Bool) (db : Store) :
    (memoryRepo fails).GetAll db 10000 0 = .ok (db.stocks.take 10000) := by
  simp [memoryRepo]

/-- Claim C13. The run returns an error if and only if the initial `GetAll`
fails or returns zero events.  On a non-empty list it returns success and
submits the recommendation of every visited group, whatever errors the calls
of `CreateRecommendation` return; on the in-memory store this holds for every
choice `fails` of the failing writes, all of them included. -/
theorem GenerateRecommendations_error_iff {σ : Type} (repo : StockRepository σ)
    (rangeOrder : StockMap → List (String × List Stock)) (st : σ) :
    ((GenerateRecommendations repo rangeOrder st).2 ≠ none ↔
      (∃ err, repo.GetAll st 10000 0 = .error err) ∨ repo.GetAll st 10000 0 = .ok []) ∧
    (∀ stocks : List Stock, repo.GetAll st 10000 0 = .ok stocks → stocks ≠ [] →
      GenerateRecommendations repo rangeOrder st =
        (submitAll repo st
          (((rangeOrder (stockGroups stocks)).map Prod.snd).filterMap groupRecommendation),
         none)) ∧
    (∀ (fails : StockRecommendation → Bool) (db : Store), db.stocks.take 10000 ≠ [] →
      GenerateRecommendations (memoryRepo fails) rangeOrder db =
        (⟨db.stocks, db.submitted ++
            ((rangeOrder (stockGroups (db.stocks.take 10000))).map Prod.snd).filterMap
              groupRecommendation⟩,
         none)) := by
  refine ⟨?_, GenerateRecommendations_ok repo rangeOrder st, ?_⟩
  · unfold GenerateRecommendations
    cases hget : repo.GetAll st 10000 0 with
    | error err => simp
    | ok stocks =>
      by_cases hlen : stocks.length = 0
      · have : stocks = [] := List.length_eq_zero.mp hlen
        simp [this]
      · have : stocks ≠ [] := fun h => hlen (by simp [h])
        simp [hlen, this]
  · intro fails db hne
    rw [GenerateRecommendations_ok (memoryRepo fails) rangeOrder db _
      (memoryRepo_GetAll fails db) hne, submitAll_memoryRepo]

/-! ## Fetching the feed -/

theorem FetchAndStoreStocks_congr {σ : Type} (repo : StockRepository σ) (env env' : FeedEnv)
    (apiURL apiKey : String) (st : σ)
    (hget : ∀ auth, env'.httpGet apiURL auth = env.httpGet apiURL auth)
    (hparse : env'.parseRFC3339 = env.parseRFC3339) (hnow : env'.now = env.now) :
    FetchAndStoreStocks repo env' apiURL apiKey st = FetchAndStoreStocks repo env apiURL apiKey st := by
  have hbody : fetchAndStoreBody env' = fetchAndStoreBody env := by
    funext stocks stockData
    simp [fetchAndStoreBody, hparse, hnow]
  unfold FetchAndStoreStocks
  rw [hget, hbody]

/-- Claim C14, evaluated on a feed of two pages.  Following the cursors with
`fetchStockPage` gives the event "AAA" and the cursor "p2", then the event
"BBB" and no cursor.  `FetchAndStoreStocks` passes only the event "AAA" to the
store: the event "BBB" of the second page is never stored. -/
theorem FetchAndStoreStocks_first_page_only :
    fetchStockPage twoPageFeed "https://feed" "k" "" =
      .ok ([mkEvent 0 "AAA" "Upgraded" "Buy" 0], some "p2") ∧
    fetchStockPage twoPageFeed "https://feed" "k" "p2" =
      .ok ([mkEvent 0 "BBB" "Upgraded" "Buy" 0], none) ∧
    FetchAndStoreStocks (memoryRepo (fun _ => false)) twoPageFeed "https://feed" "k" ⟨[], []⟩ =
      (⟨[mkEvent 0 "AAA" "Upgraded" "Buy" 0], []⟩, none) ∧
    mkEvent 0 "BBB" "Upgraded" "Buy" 0 ∉
      (FetchAndStoreStocks (memoryRepo (fun _ => false)) twoPageFeed "https://feed" "k"
        ⟨[], []⟩).1.stocks := by
  refine ⟨rfl, rfl, by decide, by decide⟩

/-! ## Scenario A -/

/-- Claim C15. Scenario A: for three events with actions "Upgraded",
"Downgraded", "Upgraded" and ratings "Buy", "Hold", "Buy" (the other fields
arbitrary) the counts are `u = 2`, `d = 1`, `b = 2`, `s = 0`, `h = 1`, the
score is 80, the risk level "medium", the expected return 2.5, the sentiment
"bullish" and the reason the three-clause text of the scenario. -/
theorem scenarioA_values (e1 e2 e3 : Stock) :
    countUpgradesDowngrades (scenarioA e1 e2 e3) = (2, 1) ∧
    countRatings (scenarioA e1 e2 e3) = (2, 0, 1) ∧
    calculateRecommendationScore (scenarioA e1 e2 e3) = 80 ∧
    calculateRiskLevel (scenarioA e1 e2 e3) = "medium" ∧
    calculateExpectedReturn (scenarioA e1 e2 e3) = 2.5 ∧
    calculateAnalystSentiment (scenarioA e1 e2 e3) = "bullish" ∧
    generateReason (scenarioA e1 e2 e3) (calculateRecommendationScore (scenarioA e1 e2 e3)) =
      "2 upgrades vs 1 downgrades; 2 buy ratings vs 0 sell ratings; Strong analyst consensus" := by
  have hud : countUpgradesDowngrades (scenarioA e1 e2 e3) = (2, 1) := rfl
  have hr : countRatings (scenarioA e1 e2 e3) = (2, 0, 1) := rfl
  have hc : scoreCounters (scenarioA e1 e2 e3) = ⟨2, 1, 2, 0, 1⟩ := rfl
  have hscore : calculateRecommendationScore (scenarioA e1 e2 e3) = 80 := by
    unfold calculateRecommendationScore
    rw [hc]
    norm_num
  have hlen : (scenarioA e1 e2 e3).length = 3 := rfl
  refine ⟨hud, hr, hscore, ?_, ?_, ?_, ?_⟩
  · unfold calculateRiskLevel
    rw [hud]
    norm_num
  · unfold calculateExpectedReturn
    rw [hud, hlen]
    norm_num
  · unfold calculateAnalystSentiment
    rw [hud, hr]
    rfl
  · rw [hscore]
    unfold generateReason
    rw [hud, hr]
    norm_num
    rfl

/-! ## Expected return on a tie, order of events, sentiment -/

/-- Claim C16 fails on the list with no events: there `u = d = 0`, and
`calculateExpectedReturn` returns 0, not 5. -/
theorem calculateExpectedReturn_nil :
    (countUpgradesDowngrades ([] : List Stock)).1 = (countUpgradesDowngrades ([] : List Stock)).2 ∧
    calculateExpectedReturn [] = 0 ∧ calculateExpectedReturn [] ≠ 5.0 := by
  refine ⟨rfl, ?_, ?_⟩ <;> simp [calculateExpectedReturn] <;> norm_num

/-- Claim C16, amended. When the upgrade count equals the downgrade count,
`calculateExpectedReturn` returns 5.0 on every non-empty list and 0.0 on the
list with no events. -/
theorem calculateExpectedReturn_tie (stocks : List Stock)
    (h : (countUpgradesDowngrades stocks).1 = (countUpgradesDowngrades stocks).2) :
    calculateExpectedReturn stocks = if stocks = [] then 0.0 else 5.0 := by
  unfold calculateExpectedReturn
  by_cases hnil : stocks = []
  · simp [hnil]
  · have hlen : stocks.length ≠ 0 := fun h0 => hnil (List.length_eq_zero.mp h0)
    rw [if_neg hlen, if_neg hnil]
    rcases hc : countUpgradesDowngrades stocks with ⟨u, d⟩
    rw [hc] at h
    simp only [] at h ⊢
    subst h
    simp

theorem calculateExpectedReturn_tie_witness :
    (countUpgradesDowngrades [exampleEvent "Initiated" "Neutral"]).1 =
        (countUpgradesDowngrades [exampleEvent "Initiated" "Neutral"]).2 ∧
    calculateExpectedReturn [exampleEvent "Initiated" "Neutral"] = 5.0 :=
  ⟨by decide,
   (calculateExpectedReturn_tie [exampleEvent "Initiated" "Neutral"] (by decide)).trans
     (by simp)⟩

theorem countUpgradesDowngrades_perm (l₁ l₂ : List Stock) (h : l₁.Perm l₂) :
    countUpgradesDowngrades l₁ = countUpgradesDowngrades l₂ := by
  rw [countUpgradesDowngrades_eq, countUpgradesDowngrades_eq, h.countP_eq, h.countP_eq]

theorem countRatings_perm (l₁ l₂ : List Stock) (h : l₁.Perm l₂) :
    countRatings l₁ = countRatings l₂ := by
  rw [countRatings_eq, countRatings_eq, h.countP_eq, h.countP_eq, h.countP_eq]

/-- Claim C17. The scorer does not depend on the order of the events: on two
lists that are permutations of each other the score, the risk level, the
expected return, the sentiment and the two counting helpers agree, and so
does the reason for every score. -/
theorem scorer_perm_invariant (l₁ l₂ : List Stock) (h : l₁.Perm l₂) :
    calculateRecommendationScore l₁ = calculateRecommendationScore l₂ ∧
    calculateRiskLevel l₁ = calculateRiskLevel l₂ ∧
    calculateExpectedReturn l₁ = calculateExpectedReturn l₂ ∧
    calculateAnalystSentiment l₁ = calculateAnalystSentiment l₂ ∧
    countUpgradesDowngrades l₁ = countUpgradesDowngrades l₂ ∧
    countRatings l₁ = countRatings l₂ ∧
    (∀ score : float64, generateReason l₁ score = generateReason l₂ score) := by
  have hud := countUpgradesDowngrades_perm l₁ l₂ h
  have hr := countRatings_perm l₁ l₂ h
  have hc : scoreCounters l₁ = scoreCounters l₂ := by
    rw [scoreCounters_eq, scoreCounters_eq, hud, hr]
  refine ⟨?_, ?_, ?_, ?_, hud, hr, ?_⟩
  · unfold calculateRecommendationScore
    rw [hc]
  · unfold calculateRiskLevel
    rw [hud]
  · unfold calculateExpectedReturn
    rw [hud, h.length_eq]
  · unfold calculateAnalystSentiment
    rw [hud, hr]
  · intro score
    unfold generateReason
    rw [hud, hr]

theorem scorer_perm_invariant_witness :
    [exampleEvent "Upgraded" "Buy", exampleEvent "Downgraded" "Hold"].Perm
      [exampleEvent "Downgraded" "Hold", exampleEvent "Upgraded" "Buy"] ∧
    calculateRecommendationScore [exampleEvent "Upgraded" "Buy", exampleEvent "Downgraded" "Hold"] =
      calculateRecommendationScore [exampleEvent "Downgraded" "Hold", exampleEvent "Upgraded" "Buy"] :=
  ⟨List.Perm.swap _ _ _,
   (scorer_perm_invariant _ _ (List.Perm.swap _ _ _)).1⟩

theorem bullish_imp (stocks : List Stock) (h : calculateAnalystSentiment stocks = "bullish") :
    (countUpgradesDowngrades stocks).1 > (countUpgradesDowngrades stocks).2 ∧
      (countRatings stocks).1 > (countRatings stocks).2.1 := by
  unfold calculateAnalystSentiment at h
  generalize countUpgradesDowngrades stocks = ud at h ⊢
  generalize countRatings stocks = r at h ⊢
  obtain ⟨u, d⟩ := ud
  obtain ⟨b, s, hh⟩ := r
  simp only [Bool.and_eq_true, decide_eq_true_eq] at h ⊢
  split_ifs at h with h1 h2
  · exact h1
  · simp at h
  · simp at h

theorem bearish_imp (stocks : List Stock) (h : calculateAnalystSentiment stocks = "bearish") :
    (countUpgradesDowngrades stocks).2 > (countUpgradesDowngrades stocks).1 ∧
      (countRatings stocks).2.1 > (countRatings stocks).1 := by
  unfold calculateAnalystSentiment at h
  generalize countUpgradesDowngrades stocks = ud at h ⊢
  generalize countRatings stocks = r at h ⊢
  obtain ⟨u, d⟩ := ud
  obtain ⟨b, s, hh⟩ := r
  simp only [Bool.and_eq_true, decide_eq_true_eq] at h ⊢
  split_ifs at h with h1 h2
  · simp at h
  · exact h2
  · simp at h

theorem expectedReturn_of_ne (stocks : List Stock)
    (h : (countUpgradesDowngrades stocks).1 ≠ (countUpgradesDowngrades stocks).2) :
    calculateExpectedReturn stocks =
      (((countUpgradesDowngrades stocks).1 : ℚ) - ((countUpgradesDowngrades stocks).2 : ℚ)) * 2.5 := by
  have hne : stocks.length ≠ 0 := by
    intro h0
    have : stocks = [] := List.length_eq_zero.mp h0
    subst this
    exact h rfl
  unfold calculateExpectedReturn
  rw [if_neg hne]
  rcases hc : countUpgradesDowngrades stocks with ⟨u, d⟩
  rw [hc] at h
  simp only [] at h ⊢
  split_ifs with h1 h2
  · push_cast; ring
  · push_cast; ring
  · exact absurd (by omega : u = d) h

/-- Claim C18. If the sentiment is "bullish" the score is strictly above 60
and the expected return strictly positive; if it is "bearish" the score is
strictly below 40 and the expected return strictly negative. -/
theorem sentiment_consistent (stocks : List Stock) :
    (calculateAnalystSentiment stocks = "bullish" →
      60 < calculateRecommendationScore stocks ∧ 0 < calculateExpectedReturn stocks) ∧
    (calculateAnalystSentiment stocks = "bearish" →
      calculateRecommendationScore stocks < 40 ∧ calculateExpectedReturn stocks < 0) := by
  have hnn := countRatings_nonneg stocks
  constructor
  · intro h
    obtain ⟨hud, hbs⟩ := bullish_imp stocks h
    constructor
    · unfold calculateRecommendationScore
      rw [scoreCounters_eq]
      generalize (countUpgradesDowngrades stocks).1 = u at hud
      generalize (countUpgradesDowngrades stocks).2 = d at hud
      generalize (countRatings stocks).1 = b at hbs hnn
      generalize (countRatings stocks).2.1 = s at hbs hnn
      generalize (countRatings stocks).2.2 = hh at hnn
      have ht : 0 < b + s + hh := by omega
      have htq : (0 : ℚ) < ((b + s + hh : Int) : ℚ) := by exact_mod_cast ht
      have hR : 0 < ((b : ℚ) / ((b + s + hh : Int) : ℚ) - (s : ℚ) / ((b + s + hh : Int) : ℚ)) * 30 := by
        have : (s : ℚ) / ((b + s + hh : Int) : ℚ) < (b : ℚ) / ((b + s + hh : Int) : ℚ) :=
          div_lt_div_of_pos_right (by exact_mod_cast hbs) htq
        linarith
      have hU : (1 : ℚ) ≤ ((u - d : Int) : ℚ) := by exact_mod_cast (by omega : 1 ≤ u - d)
      simp only [hud, ht, if_true]
      split_ifs <;> linarith
    · rw [expectedReturn_of_ne stocks (by omega)]
      have : ((countUpgradesDowngrades stocks).2 : ℚ) < ((countUpgradesDowngrades stocks).1 : ℚ) := by
        exact_mod_cast hud
      norm_num; linarith
  · intro h
    obtain ⟨hud, hbs⟩ := bearish_imp stocks h
    constructor
    · unfold calculateRecommendationScore
      rw [scoreCounters_eq]
      generalize (countUpgradesDowngrades stocks).1 = u at hud
      generalize (countUpgradesDowngrades stocks).2 = d at hud
      generalize (countRatings stocks).1 = b at hbs hnn
      generalize (countRatings stocks).2.1 = s at hbs hnn
      generalize (countRatings stocks).2.2 = hh at hnn
      have ht : 0 < b + s + hh := by omega
      have htq : (0 : ℚ) < ((b + s + hh : Int) : ℚ) := by exact_mod_cast ht
      have hR : ((b : ℚ) / ((b + s + hh : Int) : ℚ) - (s : ℚ) / ((b + s + hh : Int) : ℚ)) * 30 < 0 := by
        have : (b : ℚ) / ((b + s + hh : Int) : ℚ) < (s : ℚ) / ((b + s + hh : Int) : ℚ) :=
          div_lt_div_of_pos_right (by exact_mod_cast hbs) htq
        linarith
      have hU : (1 : ℚ) ≤ ((d - u : Int) : ℚ) := by exact_mod_cast (by omega : 1 ≤ d - u)
      have hnot : ¬ u > d := by omega
      simp only [hnot, hud, ht, if_true, if_false]
      split_ifs <;> linarith
    · rw [expectedReturn_of_ne stocks (by omega)]
      have : ((countUpgradesDowngrades stocks).1 : ℚ) < ((countUpgradesDowngrades stocks).2 : ℚ) := by
        exact_mod_cast hud
      norm_num; nlinarith

theorem sentiment_consistent_witness :
    calculateAnalystSentiment [exampleEvent "Downgraded" "Sell"] = "bearish" ∧
    calculateRecommendationScore [exampleEvent "Downgraded" "Sell"] < 40 ∧
    calculateExpectedReturn [exampleEvent "Downgraded" "Sell"] < 0 :=
  ⟨by decide, (sentiment_consistent [exampleEvent "Downgraded" "Sell"]).2 (by decide)⟩

/-! ## The score in binary64 -/

theorem round64Pos_zero : round64Pos 0 = 0 := by simp [round64Pos]

theorem round64_zero : round64 0 = 0 := by simp [round64, round64Pos_zero]

theorem round64_neg (x : ℚ) : round64 (-x) = -round64 x := by
  unfold round64
  rcases lt_trichotomy x 0 with h | h | h
  · have h1 : ¬ (-x < 0) := by linarith
    simp [h, h1]
  · subst h
    simp [round64Pos_zero]
  · have h1 : -x < 0 := by linarith
    have h2 : ¬ (x < 0) := by linarith
    simp [h1, h2]

theorem round64_fifty : round64 50 = 50 := by decide!

theorem actionTerm_eq (u d : Int) :
    (if u > d then binary64.add 50 (binary64.mul (binary64.ofInt (u - d)) 10)
      else if d > u then binary64.sub 50 (binary64.mul (binary64.ofInt (d - u)) 10)
      else (50 : float64)) =
    binary64.add 50 (binary64.mul 10 (binary64.ofInt (u - d))) := by
  unfold binary64.add binary64.sub binary64.mul binary64.ofInt
  split_ifs with h1 h2
  · rw [mul_comm]
  · have hcast : ((u - d : Int) : ℚ) = -((d - u : Int) : ℚ) := by push_cast; ring
    rw [hcast, round64_neg, mul_neg, round64_neg, ← sub_eq_add_neg, mul_comm]
  · have hud : u - d = 0 := by omega
    rw [hud]
    simp [round64_zero, round64_fifty]

/-- Claim C1, amended. For every list of events the five counters kept inline
by the score function are the counters returned by `countUpgradesDowngrades`
and `countRatings`, the rating total `b + s + h` is never negative, and the
score that the code computes is the clamp to `[0, 100]` of
`(50 + 10 * (u - d)) + 30 * (b / t - s / t)`, `t = b + s + h`, evaluated in
binary64 arithmetic, every conversion and operation rounded to nearest; when
`t = 0` no rating term is added. -/
theorem calculateRecommendationScore64_formula (stocks : List Stock) :
    scoreCounters stocks =
      ⟨(countUpgradesDowngrades stocks).1, (countUpgradesDowngrades stocks).2,
       (countRatings stocks).1, (countRatings stocks).2.1, (countRatings stocks).2.2⟩ ∧
    0 ≤ (countRatings stocks).1 + (countRatings stocks).2.1 + (countRatings stocks).2.2 ∧
    calculateRecommendationScore64 stocks =
      clamp
        (if (countRatings stocks).1 + (countRatings stocks).2.1 + (countRatings stocks).2.2 > 0
          then
            binary64.add
              (binary64.add 50
                (binary64.mul 10
                  (binary64.ofInt
                    ((countUpgradesDowngrades stocks).1 - (countUpgradesDowngrades stocks).2))))
              (binary64.mul 30
                (binary64.sub
                  (binary64.div (binary64.ofInt (countRatings stocks).1)
                    (binary64.ofInt ((countRatings stocks).1 + (countRatings stocks).2.1
                      + (countRatings stocks).2.2)))
                  (binary64.div (binary64.ofInt (countRatings stocks).2.1)
                    (binary64.ofInt ((countRatings stocks).1 + (countRatings stocks).2.1
                      + (countRatings stocks).2.2)))))
          else
            binary64.add 50
              (binary64.mul 10
                (binary64.ofInt
                  ((countUpgradesDowngrades stocks).1 - (countUpgradesDowngrades stocks).2))))
        0 100 := by
  refine ⟨scoreCounters_eq stocks, ?_, ?_⟩
  · have := countRatings_nonneg stocks; omega
  · unfold calculateRecommendationScore64
    rw [scoreCounters_eq]
    generalize (countUpgradesDowngrades stocks).1 = u
    generalize (countUpgradesDowngrades stocks).2 = d
    generalize (countRatings stocks).1 = b
    generalize (countRatings stocks).2.1 = s
    generalize (countRatings stocks).2.2 = h
    simp only []
    rw [clamp_branches, actionTerm_eq]
    congr 1
    split_ifs with ht
    · unfold binary64.mul
      rw [mul_comm (30 : float64)]
    · rfl

/-- Claim C1 fails on six events with `u = 0`, `d = 4`, `b = 5`, `s = 1`,
`h = 0`: in exact arithmetic the formula gives 30, the code computes
`30 + 2 ^ (-48)` (printed 30.000000000000004). -/
theorem calculateRecommendationScore_rounding :
    countUpgradesDowngrades roundingEvents = (0, 4) ∧
    countRatings roundingEvents = (5, 1, 0) ∧
    clamp (50 + 10 * (((0 : Int) : ℚ) - ((4 : Int) : ℚ)) + ratingTerm 5 1 0) 0 100 = 30 ∧
    calculateRecommendationScore64 roundingEvents = 30 + 1 / 2 ^ 48 ∧
    calculateRecommendationScore64 roundingEvents ≠
      clamp (50 + 10 * (((countUpgradesDowngrades roundingEvents).1 : ℚ)
                - ((countUpgradesDowngrades roundingEvents).2 : ℚ))
              + ratingTerm (countRatings roundingEvents).1 (countRatings roundingEvents).2.1
                  (countRatings roundingEvents).2.2) 0 100 := by
  have hud : countUpgradesDowngrades roundingEvents = (0, 4) := by decide
  have hr : countRatings roundingEvents = (5, 1, 0) := by decide
  have hc : scoreCounters roundingEvents = ⟨0, 4, 5, 1, 0⟩ := by decide
  have hexact : clamp (50 + 10 * (((0 : Int) : ℚ) - ((4 : Int) : ℚ)) + ratingTerm 5 1 0) 0 100
      = 30 := by decide!
  have h64 : calculateRecommendationScore64 roundingEvents = 30 + 1 / 2 ^ 48 := by
    unfold calculateRecommendationScore64
    rw [hc]
    decide!
  refine ⟨hud, hr, hexact, h64, ?_⟩
  rw [hud, hr, h64, hexact]
  norm_num

/-! ## The window of the generation run -/

theorem latestStock_mem (g : List Stock) (r : Stock) (h : latestStock g = some r) : r ∈ g := by
  cases g with
  | nil => simp [latestStock] at h
  | cons first rest =>
    have hf := latest_foldl (first :: rest) first
    simp only [latestStock, Option.some.injEq] at h
    simp only [] at hf
    rw [h] at hf
    rcases hf with ⟨hr, _⟩ | ⟨i, hi, _⟩
    · rw [hr]; exact List.mem_cons_self _ _
    · exact List.getElem?_mem hi

/-- Claim C11, amended. Let `stored` be the non-empty list of stored events,
at most 10000 of them, so that `GetAll(10000, 0)` returns them all, and let
`range` visit every entry of the map once.  Then the run succeeds and submits
a list `recs` of recommendations, one call of `CreateRecommendation` each: the
visited tickers are the distinct tickers of `stored`, each once; `recs` has
one element per distinct ticker; and the recommendation submitted for a
visited ticker `t` is `recommendationOf` of the whole group of `t` and of its
representative event (`StockID` the representative's `ID`, score, risk level,
expected return and sentiment from the scorer on the group, reason from that
same score, the two counts from `countUpgradesDowngrades`, time horizon
"medium"). -/
theorem GenerateRecommendations_one_per_stored_ticker {σ : Type} (repo : StockRepository σ)
    (rangeOrder : StockMap → List (String × List Stock)) (st : σ) (stored : List Stock)
    (hget : repo.GetAll st 10000 0 = .ok (stored.take 10000))
    (hlen : stored.length ≤ 10000) (hne : stored ≠ [])
    (hperm : (rangeOrder (stockGroups stored)).Perm (stockGroups stored)) :
    ∃ recs : List StockRecommendation,
      GenerateRecommendations repo rangeOrder st = (submitAll repo st recs, none) ∧
      ((rangeOrder (stockGroups stored)).map Prod.fst).Perm
        (stored.map (fun e => e.Ticker)).dedup ∧
      recs.length = (stored.map (fun e => e.Ticker)).dedup.length ∧
      List.Forall₂
        (fun (t : String) (rec : StockRecommendation) =>
          ∃ r : Stock, latestStock (tickerGroup stored t) = some r ∧
            rec = recommendationOf (tickerGroup stored t) r)
        ((rangeOrder (stockGroups stored)).map Prod.fst) recs := by
  rw [List.take_of_length_le hlen] at hget
  exact GenerateRecommendations_returned repo rangeOrder st stored hget hne hperm

theorem GenerateRecommendations_one_per_stored_ticker_witness :
    (memoryRepo (fun _ => false)).GetAll ⟨demoStocks, []⟩ 10000 0 =
      .ok (demoStocks.take 10000) ∧
    demoStocks.length ≤ 10000 ∧ demoStocks ≠ [] ∧
    (stockGroups demoStocks).reverse.Perm (stockGroups demoStocks) ∧
    ∃ recs : List StockRecommendation,
      GenerateRecommendations (memoryRepo (fun _ => false)) List.reverse ⟨demoStocks, []⟩ =
        (submitAll (memoryRepo (fun _ => false)) ⟨demoStocks, []⟩ recs, none) ∧
      ((stockGroups demoStocks).reverse.map Prod.fst).Perm
        (demoStocks.map (fun e => e.Ticker)).dedup ∧
      recs.length = (demoStocks.map (fun e => e.Ticker)).dedup.length ∧
      List.Forall₂
        (fun (t : String) (rec : StockRecommendation) =>
          ∃ r : Stock, latestStock (tickerGroup demoStocks t) = some r ∧
            rec = recommendationOf (tickerGroup demoStocks t) r)
        ((stockGroups demoStocks).reverse.map Prod.fst) recs :=
  ⟨rfl, by decide, by decide, List.reverse_perm _,
   GenerateRecommendations_one_per_stored_ticker (memoryRepo (fun _ => false)) List.reverse
     ⟨demoStocks, []⟩ demoStocks rfl (by decide) (by decide) (List.reverse_perm _)⟩

theorem forall₂_right_mem {α β : Type} {R : α → β → Prop} {l₁ : List α} {l₂ : List β}
    (h : List.Forall₂ R l₁ l₂) (b : β) (hb : b ∈ l₂) : ∃ a, a ∈ l₁ ∧ R a b := by
  induction h with
  | nil => simp at hb
  | cons hab _ ih =>
    rcases List.mem_cons.mp hb with rfl | hb
    · exact ⟨_, List.mem_cons_self _ _, hab⟩
    · obtain ⟨a, ha, hR⟩ := ih hb
      exact ⟨a, List.mem_cons_of_mem _ ha, hR⟩

theorem nodup_all_eq_length (l : List String) (x : String) (hn : l.Nodup)
    (hall : ∀ t ∈ l, t = x) (hx : x ∈ l) : l.length = 1 := by
  cases l with
  | nil => simp at hx
  | cons a rest =>
    cases rest with
    | nil => rfl
    | cons b rest =>
      have ha := hall a (List.mem_cons_self _ _)
      have hb := hall b (List.mem_cons_of_mem _ (List.mem_cons_self _ _))
      have : a ∉ b :: rest := (List.nodup_cons.mp hn).1
      exact absurd (by rw [ha, hb]; exact List.mem_cons_self _ _) this

theorem overflowStore_tickers :
    (overflowStore.stocks.map (fun e => e.Ticker)).dedup.Perm ["AAA", "BBB"] := by
  refine (List.perm_ext_iff_of_nodup (List.nodup_dedup _) (by decide)).mpr ?_
  intro t
  simp only [overflowStore, List.mem_dedup, List.map_append, List.map_replicate, List.mem_append,
    List.mem_replicate, List.map_cons, List.map_nil, List.mem_singleton, List.mem_cons,
    List.not_mem_nil, or_false, mkEvent]
  constructor
  · rintro (⟨_, h⟩ | h)
    · exact Or.inl h
    · exact Or.inr h
  · rintro (h | h)
    · exact Or.inl ⟨by decide, h⟩
    · exact Or.inr h

theorem single_ticker_run (fails : StockRecommendation → Bool) (db : Store) (W : List Stock)
    (a : Stock) (htake : db.stocks.take 10000 = W) (hW : ∀ e ∈ W, e = a) (ha : a ∈ W) :
    ∃ recs : List StockRecommendation,
      GenerateRecommendations (memoryRepo fails) id db = (⟨db.stocks, db.submitted ++ recs⟩, none) ∧
      recs.length = 1 ∧ ∀ r ∈ recs, r.StockID = a.ID := by
  have hne : W ≠ [] := List.ne_nil_of_mem ha
  have hrun := GenerateRecommendations_ok (memoryRepo fails) id db W
    (by rw [memoryRepo_GetAll, htake]) hne
  rw [submitAll_memoryRepo] at hrun
  have hF := visited_entries_forall₂ W (id (stockGroups W)) (fun p hp => hp)
  have hkeys : ((id (stockGroups W)).map Prod.fst).length = 1 := by
    refine nodup_all_eq_length _ a.Ticker (stockGroups_keys_nodup _) ?_ ?_
    · intro t ht
      obtain ⟨e, he, het⟩ := (stockGroups_mem_keys _ t).mp ht
      rw [hW e he] at het
      exact het.symm
    · exact (stockGroups_mem_keys _ a.Ticker).mpr ⟨a, ha, rfl⟩
  refine ⟨_, hrun, ?_, ?_⟩
  · rw [← hF.length_eq]
    exact hkeys
  · intro r hr
    obtain ⟨t, _, r', hr', hrec⟩ := forall₂_right_mem hF r hr
    have hmem : r' ∈ W := List.mem_of_mem_filter (latestStock_mem _ r' hr')
    rw [hrec, hW r' hmem]
    rfl

/-- Claim C11 fails on a store of 10001 events, 10000 of ticker "AAA" followed
by one of ticker "BBB": the stored events have two distinct tickers, the run
succeeds and submits a single recommendation, for the row of "AAA"; no
recommendation is submitted for "BBB". -/
theorem GenerateRecommendations_window :
    overflowStore.stocks.length = 10001 ∧
    (overflowStore.stocks.map (fun e => e.Ticker)).dedup.length = 2 ∧
    mkEvent 2 "BBB" "Downgraded" "Sell" 20 ∈ overflowStore.stocks ∧
    ∃ recs : List StockRecommendation,
      GenerateRecommendations (memoryRepo (fun _ => false)) id overflowStore =
        (⟨overflowStore.stocks, recs⟩, none) ∧
      recs.length = 1 ∧ ∀ r ∈ recs, r.StockID = 1 := by
  have htake : overflowStore.stocks.take 10000 =
      List.replicate 10000 (mkEvent 1 "AAA" "Upgraded" "Buy" 10) :=
    List.take_left' (List.length_replicate _ _)
  obtain ⟨recs, hrun, hlen, hid⟩ := single_ticker_run (fun _ => false) overflowStore _
    (mkEvent 1 "AAA" "Upgraded" "Buy" 10) htake
    (fun e he => List.eq_of_mem_replicate he)
    (List.mem_replicate.mpr ⟨by decide, rfl⟩)
  refine ⟨?_, overflowStore_tickers.length_eq,
    List.mem_append_right _ (List.mem_singleton_self _), recs, ?_, hlen, hid⟩
  · simp only [overflowStore, List.length_append, List.length_replicate, List.length_singleton]
  · rw [hrun]
    rfl

/-! ## Further facts about the binary64 score -/

/-- The binary64 score lies between 0 and 100. -/
theorem calculateRecommendationScore64_bounds (stocks : List Stock) :
    0 ≤ calculateRecommendationScore64 stocks ∧ calculateRecommendationScore64 stocks ≤ 100 := by
  unfold calculateRecommendationScore64
  simp only []
  split_ifs <;> constructor <;> linarith

/-- The binary64 score does not depend on the order of the events. -/
theorem calculateRecommendationScore64_perm (l₁ l₂ : List Stock) (h : l₁.Perm l₂) :
    calculateRecommendationScore64 l₁ = calculateRecommendationScore64 l₂ := by
  have hc : scoreCounters l₁ = scoreCounters l₂ := by
    rw [scoreCounters_eq, scoreCounters_eq, countUpgradesDowngrades_perm l₁ l₂ h,
      countRatings_perm l₁ l₂ h]
  unfold calculateRecommendationScore64
  rw [hc]

/-- On Scenario A the binary64 score is 80 as well. -/
theorem scenarioA_score64 (e1 e2 e3 : Stock) :
    calculateRecommendationScore64 (scenarioA e1 e2 e3) = 80 := by
  have hc : scoreCounters (scenarioA e1 e2 e3) = ⟨2, 1, 2, 0, 1⟩ := rfl
  unfold calculateRecommendationScore64
  rw [hc]
  decide!

theorem roundingEvents_score64 :
    calculateRecommendationScore64 roundingEvents = 30 + 1 / 2 ^ 48 := by
  have hc : scoreCounters roundingEvents = ⟨0, 4, 5, 1, 0⟩ := by decide
  unfold calculateRecommendationScore64
  rw [hc]
  decide!

/-- On the six events the reason built from the binary64 score has no score
clause, the reason built from the exact value 30 has one. -/
theorem generateReason_rounding :
    generateReason roundingEvents (calculateRecommendationScore64 roundingEvents) =
      "4 downgrades vs 0 upgrades; 5 buy ratings vs 1 sell ratings" ∧
    generateReason roundingEvents 30 =
      "4 downgrades vs 0 upgrades; 5 buy ratings vs 1 sell ratings; Weak analyst sentiment" := by
  have hud : countUpgradesDowngrades roundingEvents = (0, 4) := by decide
  have hr : countRatings roundingEvents = (5, 1, 0) := by decide
  have h64 := roundingEvents_score64
  constructor
  · rw [h64]
    unfold generateReason
    rw [hud, hr]
    norm_num
    rfl
  · unfold generateReason
    rw [hud, hr]
    norm_num
    rfl

end Truora
